import Mathlib

/-!
Verification of the meeting-cost-calculator repository.

Shallow embedding of the core logic:
  * `src/cost_calculator.py`  — `internal_email`, `event_duration_hours`,
    `compute_meeting_cost` (the Cost Policy),
  * `src/calendar_service.py` — `list_changed_events` error handling,
    `get_cost_display_format`, `create_dual_cost_display`, and the
    description-merge part of `annotate_event`,
  * `src/main.py`             — the `cron` driver loop.

Python floats are embedded as exact rationals (`ℚ`); Python's `round(x, 0)`
(banker's rounding, half to even) is embedded as `pyround`.  Timestamps are
embedded as rational seconds: the `datetime` library is an external
collaborator, and the only facts the code uses are the difference
`end - start` in seconds and the presence/absence of a `dateTime` field
(all-day events carry only a `date`).  Text is embedded as `List Char`.
-/

namespace MeetingCost

/-- Configuration surface of `src/config.py` (the fields the core logic
reads: organization domain, default hourly rate, annotation tag and the
internal-only flag). -/
structure Config where
  domain : String
  default_rate : ℚ
  cost_tag : String
  internal_only : Bool

/-- The default configuration values from `src/config.py`
(`DOMAIN=hginsights.com`, `DEFAULT_RATE=125`, `COST_TAG=[[MEETING_COST]]`,
`INTERNAL_ONLY=true`). -/
def defaultConfig : Config :=
  { domain := "hginsights.com"
    default_rate := 125
    cost_tag := "[[MEETING_COST]]"
    internal_only := true }

/-- One attendee of a calendar event: `email` is `none` when the key is
absent (Python `a.get("email")` returning `None`), `responseStatus`
likewise defaults when absent. -/
structure Attendee where
  email : Option String
  responseStatus : Option String
deriving DecidableEq, Repr

/-- `start`/`end` marker of an event: `dateTime` is `some t` (seconds, as an
exact rational) for a timed event and `none` for a date-only (all-day)
event. -/
structure EventTime where
  dateTime : Option ℚ
deriving DecidableEq

/-- A calendar event, restricted to the fields the core logic reads. -/
structure Event where
  id : String
  start : EventTime
  «end» : EventTime
  attendees : List Attendee
  description : List Char
deriving DecidableEq

/-- Python `str.lower` (character-wise lowercasing; ASCII range, matching
the character set of the repository's emails and tags). -/
def lowerStr (s : String) : String :=
  ⟨s.data.map Char.toLower⟩

/-- Python `str.endswith`: suffix test on the character sequence. -/
def strEndsWith (s suffix : String) : Bool :=
  List.isSuffixOf suffix.data s.data

/-- Boolean infix test on character lists: does `needle` occur as a
contiguous subsequence of the second argument? -/
def listInfixOf (needle : List Char) : List Char → Bool
  | [] => needle.isPrefixOf []
  | c :: rest => needle.isPrefixOf (c :: rest) || listInfixOf needle rest

/-- Python `sub in s`: substring (infix) test on the character sequence. -/
def strContains (s sub : String) : Bool :=
  listInfixOf sub.data s.data

/-- `internal_email` from `src/cost_calculator.py`:
`email.lower().endswith("@" + config.domain)` — only the email side is
lowercased. -/
def internal_email (cfg : Config) (email : String) : Bool :=
  strEndsWith (lowerStr email) ("@" ++ cfg.domain)

/-- `event_duration_hours` from `src/cost_calculator.py`: zero when either
side lacks a `dateTime` (all-day events), otherwise the difference in
seconds clamped below at zero, divided by 3600. -/
def event_duration_hours (e : Event) : ℚ :=
  match e.start.dateTime, e.«end».dateTime with
  | some s, some t => max 0 (t - s) / 3600
  | _, _ => 0

/-- Python's `round(x, 0)` on an exact value: round half to even
(banker's rounding), as `int(...)` of the rounded value. -/
def pyround (x : ℚ) : ℤ :=
  if x - (⌊x⌋ : ℚ) < 1/2 then ⌊x⌋
  else if (1:ℚ)/2 < x - (⌊x⌋ : ℚ) then ⌊x⌋ + 1
  else if ⌊x⌋ % 2 = 0 then ⌊x⌋ else ⌊x⌋ + 1

/-- Result dictionary of `compute_meeting_cost`: the `invited_cost`,
`effective_cost` and `skip_reason` keys are always present; the count and
hours keys are present only on qualifying results (`none` = key absent). -/
structure CostResult where
  invited_cost : ℤ
  effective_cost : ℤ
  invited_count : Option ℕ
  effective_count : Option ℕ
  hours : Option ℚ
  skip_reason : Option String
deriving DecidableEq

/-- The skip-result dictionary `{'invited_cost': -1, 'effective_cost': -1,
'skip_reason': reason}`. -/
def skipResult (reason : String) : CostResult :=
  { invited_cost := -1, effective_cost := -1, invited_count := none,
    effective_count := none, hours := none, skip_reason := some reason }

/-- An attendee dictionary has a truthy `email` (present and non-empty). -/
def hasEmail (a : Attendee) : Bool :=
  match a.email with
  | some s => s ≠ ""
  | none => false

/-- The email of an attendee that passed the `hasEmail` filter
(`a["email"]`; empty string never occurs after the filter). -/
def attendeeEmail (a : Attendee) : String :=
  a.email.getD ""

/-- `attendee.get("responseStatus", "needsAction").lower()` is one of
`accepted`, `tentative`, `needsaction`. -/
def isEffective (a : Attendee) : Bool :=
  let r := lowerStr (a.responseStatus.getD "needsAction")
  r = "accepted" ∨ r = "tentative" ∨ r = "needsaction"

/-- The Python local `attendees`: attendee dictionaries with a truthy
`email`. -/
def emailAttendees (event : Event) : List Attendee :=
  event.attendees.filter hasEmail

/-- The Python local `internal_attendees`: email-bearing attendees whose
email passes `internal_email`. -/
def internalAttendees (cfg : Config) (event : Event) : List Attendee :=
  (emailAttendees event).filter (fun a => internal_email cfg (attendeeEmail a))

/-- The Python local `effective_attendees`: internal attendees whose
response is accepted/tentative/needsAction. -/
def effectiveAttendees (cfg : Config) (event : Event) : List Attendee :=
  (internalAttendees cfg event).filter isEffective

/-- `compute_meeting_cost` from `src/cost_calculator.py`.  `hourly_rate`
is `none` for the Python default `None`, which resolves to
`config.default_rate`; the Python locals are the named definitions above,
inlined. -/
def compute_meeting_cost (cfg : Config) (event : Event)
    (hourly_rate : Option ℚ) : CostResult :=
  if event_duration_hours event ≤ 0 then skipResult "no_duration"
  else if cfg.internal_only ∧
      (internalAttendees cfg event).length ≠ (emailAttendees event).length then
    skipResult "mixed_meeting"
  else if (internalAttendees cfg event).length = 0 then
    skipResult "no_internal_attendees"
  else if (internalAttendees cfg event).length = 1 then
    skipResult "solo_meeting"
  else if (effectiveAttendees cfg event).length = 0 then
    skipResult "all_declined"
  else if (effectiveAttendees cfg event).length = 1 then
    skipResult "effective_solo_meeting"
  else
    { invited_cost := pyround (event_duration_hours event *
        (internalAttendees cfg event).length * hourly_rate.getD cfg.default_rate)
      effective_cost := pyround (event_duration_hours event *
        (effectiveAttendees cfg event).length * hourly_rate.getD cfg.default_rate)
      invited_count := some (internalAttendees cfg event).length
      effective_count := some (effectiveAttendees cfg event).length
      hours := some (event_duration_hours event)
      skip_reason := none }

/-! ### Annotation rendering (`src/calendar_service.py`) -/

/-- The decimal digit character for `d < 10`. -/
def digitChar (d : ℕ) : Char :=
  Char.ofNat (48 + d)

/-- Decimal digits of `n`, least significant first; structural on a fuel
argument (`fuel = n + 1` always suffices). -/
def natDigitsRevAux : ℕ → ℕ → List Char
  | 0, _ => []
  | fuel + 1, n =>
    if n < 10 then [digitChar n]
    else digitChar (n % 10) :: natDigitsRevAux fuel (n / 10)

/-- Decimal digits of `n`, least significant first. -/
def natDigitsRev (n : ℕ) : List Char :=
  natDigitsRevAux (n + 1) n

/-- Python `str(n)` for a natural number (plain decimal digits, as used by
`f-string` count fields). -/
def natToChars (n : ℕ) : List Char :=
  (natDigitsRev n).reverse

/-- Insert a comma after every three characters of a reversed digit
string. -/
def groupRev : List Char → List Char
  | a :: b :: c :: d :: rest => a :: b :: c :: ',' :: groupRev (d :: rest)
  | l => l

/-- Python `f"{n:,}"` for a natural number: decimal with thousands
separators. -/
def commaNat (n : ℕ) : List Char :=
  (groupRev (natDigitsRev n)).reverse

/-- Python `f"{cost:,}"` for an integer. -/
def commaFmt (n : ℤ) : List Char :=
  if n < 0 then '-' :: commaNat n.natAbs else commaNat n.toNat

/-- `get_cost_display_format` from `src/calendar_service.py`: tier emoji
plus `$` plus thousands-separated cost. -/
def get_cost_display_format (cost : ℤ) : List Char :=
  if cost > 1000 then '🔴' :: ' ' :: '$' :: commaFmt cost
  else if cost > 500 then '🟠' :: ' ' :: '$' :: commaFmt cost
  else '🟢' :: ' ' :: '$' :: commaFmt cost

/-- `create_dual_cost_display` from `src/calendar_service.py`, applied to
the four fields the function reads from a qualifying cost dictionary.
Single line when the two costs agree, otherwise the effective line plus
the subordinate invited-cost line. -/
def create_dual_cost_display (cfg : Config) (invited_cost effective_cost : ℤ)
    (invited_count effective_count : ℕ) : List Char :=
  if invited_cost = effective_cost then
    cfg.cost_tag.data ++ ':' :: ' ' :: get_cost_display_format effective_cost
  else
    cfg.cost_tag.data ++ ':' :: ' ' :: get_cost_display_format effective_cost ++
      '\n' :: "└─ Invited cost: ".data ++ get_cost_display_format invited_cost ++
      ' ' :: '(' :: natToChars invited_count ++ " invited → ".data ++
      natToChars effective_count ++ " attending)".data

/-! ### The annotation merge of `annotate_event`

`annotate_event` matches the regex
`re.escape(cost_tag) + r":.*?(?=\n(?![└─])|$)"` with `re.DOTALL` against the
description and substitutes every match (`re.sub`) with the fresh cost
line.  A match starts at an occurrence of `cost_tag + ":"`; the lazy `.*?`
ends at the first position where either the string ends (`$`, which under
`re.DOTALL` without `re.MULTILINE` also matches just before a trailing
final newline) or the next character is a newline not followed by `└` or
`─`.  `splitAtNeedle`/`lazySplit`/`pySubAll` implement exactly this
leftmost-shortest repeated substitution on character lists. -/

/-- The position after `'\n'` terminates a match unless the subordinate
markers `└`/`─` follow (the `(?![└─])` lookahead). -/
def stopAfterNl : List Char → Bool
  | [] => true
  | d :: _ => ¬(d = '└' ∨ d = '─')

/-- Does the lazy `.*?` stop right here?  True at the end of the string,
just before a trailing final newline, and before any `\n` not followed by
a subordinate marker. -/
def stopCond : List Char → Bool
  | [] => true
  | c :: rest => c = '\n' ∧ stopAfterNl rest

/-- Split at the first stopping position of the lazy `.*?`: returns the
consumed part and the rest (stopping is zero-width: the `\n` is not
consumed). -/
def lazySplit : List Char → List Char × List Char
  | [] => ([], [])
  | c :: rest =>
    if c = '\n' ∧ stopAfterNl rest then ([], c :: rest)
    else ((c :: (lazySplit rest).1), (lazySplit rest).2)

/-- Split a string at the leftmost occurrence of `needle`: returns the
part before the occurrence and the rest (which starts with `needle`), or
`none` when `needle` does not occur. -/
def splitAtNeedle (needle : List Char) : List Char → Option (List Char × List Char)
  | [] => if needle.isPrefixOf ([] : List Char) then some ([], []) else none
  | c :: cs =>
    if needle.isPrefixOf (c :: cs) then some ([], c :: cs)
    else (splitAtNeedle needle cs).map (fun p => (c :: p.1, p.2))

/-- `re.sub` of the annotation pattern: replace every (leftmost,
non-overlapping, lazily-ended) match `needle ++ lazy-part` with `cl`;
structural on a fuel argument. -/
def subAllFuel (needle cl : List Char) : ℕ → List Char → List Char
  | 0, s => s
  | fuel + 1, s =>
    match splitAtNeedle needle s with
    | none => s
    | some (pre, rest) =>
      pre ++ cl ++
        subAllFuel needle cl fuel (lazySplit (rest.drop needle.length)).2

/-- `re.sub` of the annotation pattern (`s.length` fuel always suffices
for a non-empty needle). -/
def pySubAll (needle cl s : List Char) : List Char :=
  subAllFuel needle cl s.length s

/-- The characters Python `str.strip()` removes. -/
def isPySpace (c : Char) : Bool :=
  c = ' ' ∨ c = '\t' ∨ c = '\n' ∨ c = '\r' ∨ c = '\x0b' ∨ c = '\x0c'

/-- The search/replace needle `re.escape(config.cost_tag) + ":"`. -/
def needleOf (cfg : Config) : List Char :=
  cfg.cost_tag.data ++ [':']

/-- The description-merge core of `annotate_event` from
`src/calendar_service.py` (dictionary mode): if the tag pattern occurs,
substitute every match with the fresh cost line; otherwise prepend the
cost line with a blank-line separator when the stripped description is
non-empty, or emit the cost line alone. -/
def annotate_description (cfg : Config) (invited_cost effective_cost : ℤ)
    (invited_count effective_count : ℕ) (desc : List Char) : List Char :=
  match splitAtNeedle (needleOf cfg) desc with
  | some _ =>
    pySubAll (needleOf cfg)
      (create_dual_cost_display cfg invited_cost effective_cost invited_count effective_count) desc
  | none =>
    if desc.any (fun c => ¬ isPySpace c) then
      create_dual_cost_display cfg invited_cost effective_cost invited_count effective_count ++
        '\n' :: '\n' :: desc
    else
      create_dual_cost_display cfg invited_cost effective_cost invited_count effective_count

/-! ### Change tracking and the driver (`src/calendar_service.py`, `src/main.py`)

The upstream Calendar API is an external collaborator: it is modelled as a
function from the optional sync token to the collapsed outcome of the
whole paginated fetch — either the accumulated events with the final
page's `nextSyncToken`, or the message of the exception raised during the
fetch. -/

/-- The stale-cursor test of `list_changed_events`:
`"syncToken" in str(e) and "full sync" in str(e).lower()`. -/
def syncRequired (e : String) : Bool :=
  strContains e "syncToken" && strContains (lowerStr e) "full sync"

/-- `list_changed_events` from `src/calendar_service.py`: on success the
events and next token; on a stale-sync-token exception the `(None, None)`
sentinel; any other exception propagates. -/
def list_changed_events
    (upstream : Option String → Except String (List Event × Option String))
    (sync_token : Option String) :
    Except String (Option (List Event) × Option String) :=
  match upstream sync_token with
  | .ok (events, next) => .ok (some events, next)
  | .error e => if syncRequired e then .ok (none, none) else .error e

/-- The injected capabilities for one user's run in `cron`: the upstream
calendar fetch, the stored sync token, and the annotation write (which
may fail per event). -/
structure UserEnv where
  upstream : Option String → Except String (List Event × Option String)
  sync_token : Option String
  annotate : Event → Except String Unit

/-- `main.py` lines 28–31: fetch with the stored token; if the `(None,
None)` sentinel comes back, retry exactly once with no token. -/
def resolveItems (env : UserEnv) :
    Except String (Option (List Event) × Option String) :=
  match list_changed_events env.upstream env.sync_token with
  | .ok (none, none) => list_changed_events env.upstream none
  | r => r

/-- The per-event body of the `cron` loop (`main.py` lines 33–44): skip
counting for negative effective cost, otherwise attempt the annotation
write, counting it as processed only on success; a write error is caught
and changes neither counter. -/
def processEvent (cfg : Config) (env : UserEnv) (counts : ℕ × ℕ)
    (event : Event) : ℕ × ℕ :=
  if (compute_meeting_cost cfg event none).effective_cost < 0 then
    (counts.1, counts.2 + 1)
  else
    match env.annotate event with
    | .ok _ => (counts.1 + 1, counts.2)
    | .error _ => counts

/-- One user's processing in `cron`: resolve the events (an uncaught
fetch exception propagates; iterating a still-`None` items raises a
`TypeError`) and fold the per-event body. -/
def processUser (cfg : Config) (env : UserEnv) : Except String (ℕ × ℕ) :=
  match resolveItems env with
  | .error e => .error e
  | .ok (none, _) => .error "TypeError: items is None"
  | .ok (some items, _) => .ok (items.foldl (processEvent cfg env) (0, 0))

/-- The `cron` endpoint of `src/main.py`: process users in order,
accumulating the processed/skipped counters; there is no per-user
exception handling, so any user's uncaught failure aborts the whole run. -/
def cron (cfg : Config) (users : List String) (envOf : String → UserEnv) :
    Except String (ℕ × ℕ) :=
  match users with
  | [] => .ok (0, 0)
  | u :: rest =>
    match processUser cfg (envOf u) with
    | .error e => .error e
    | .ok (p, s) =>
      match cron cfg rest envOf with
      | .error e => .error e
      | .ok (p', s') => .ok (p + p', s + s')

/-! ### Specification-side definitions (formalizing the spec's words, for
refinement comparisons) -/

/-- The spec's classification rule for C9: the email ends, compared
case-insensitively on both sides, with `@` followed by the organization
domain. -/
def internal_email_spec (domain email : String) : Bool :=
  strEndsWith (lowerStr email) ("@" ++ lowerStr domain)

/-- The spec's ordered skip cascade for C3, written from the claim's
wording: zero-or-negative duration, then mixed meeting (internal-only
enabled and some email-bearing attendee external), then zero internal,
one internal, zero effective, one effective. -/
def skip_reason_spec (cfg : Config) (event : Event) : Option String :=
  if event_duration_hours event ≤ 0 then some "no_duration"
  else if cfg.internal_only ∧
      ∃ a ∈ emailAttendees event, internal_email cfg (attendeeEmail a) = false then
    some "mixed_meeting"
  else if (internalAttendees cfg event).length = 0 then some "no_internal_attendees"
  else if (internalAttendees cfg event).length = 1 then some "solo_meeting"
  else if (effectiveAttendees cfg event).length = 0 then some "all_declined"
  else if (effectiveAttendees cfg event).length = 1 then some "effective_solo_meeting"
  else none

/-- Rounding to the nearest integer with ties away from zero (the rule
the spec names for C2). -/
def roundHalfAwayFromZero (x : ℚ) : ℤ :=
  if x - (⌊x⌋ : ℚ) < 1/2 then ⌊x⌋
  else if (1:ℚ)/2 < x - (⌊x⌋ : ℚ) then ⌊x⌋ + 1
  else if x < 0 then ⌊x⌋ else ⌊x⌋ + 1

/-! ### Concrete fixtures -/

/-- An attendee dictionary with both keys present. -/
def mkAtt (em : String) (rs : Option String) : Attendee :=
  ⟨some em, rs⟩

/-- 1-hour meeting, two internal attendees, both accepted. -/
def evTwoAccepted : Event :=
  { id := "e1", start := ⟨some 0⟩, «end» := ⟨some 3600⟩,
    attendees := [mkAtt "alice@hginsights.com" (some "accepted"),
                  mkAtt "bob@hginsights.com" (some "accepted")],
    description := [] }

/-- 2.5-hour meeting, three internal attendees, no responses. -/
def evThreeLong : Event :=
  { id := "e2", start := ⟨some 0⟩, «end» := ⟨some 9000⟩,
    attendees := [mkAtt "alice@hginsights.com" none,
                  mkAtt "bob@hginsights.com" none,
                  mkAtt "charlie@hginsights.com" none],
    description := [] }

/-- A 1-second meeting with three internal attendees, one declined: both
costs round to 0 while the counts differ. -/
def evTiny : Event :=
  { id := "e3", start := ⟨some 0⟩, «end» := ⟨some 1⟩,
    attendees := [mkAtt "alice@hginsights.com" (some "accepted"),
                  mkAtt "bob@hginsights.com" (some "declined"),
                  mkAtt "carol@hginsights.com" (some "accepted")],
    description := [] }

/-- All-day event (date-only markers), two internal attendees. -/
def evAllDay : Event :=
  { id := "s1", start := ⟨none⟩, «end» := ⟨none⟩,
    attendees := [mkAtt "alice@hginsights.com" none,
                  mkAtt "bob@hginsights.com" none],
    description := [] }

/-- 1-hour meeting with an internal and an external attendee. -/
def evMixed : Event :=
  { id := "s2", start := ⟨some 0⟩, «end» := ⟨some 3600⟩,
    attendees := [mkAtt "alice@hginsights.com" none,
                  mkAtt "ext@other.com" none],
    description := [] }

/-- 1-hour meeting whose only attendee dictionary lacks an email: the
email-bearing list is empty, so the mixed check cannot fire and the
zero-internal check does (with `internal_only` enabled, an event with
email-bearing external attendees skips as `mixed_meeting` first). -/
def evExternal : Event :=
  { id := "s3", start := ⟨some 0⟩, «end» := ⟨some 3600⟩,
    attendees := [⟨none, none⟩],
    description := [] }

/-- 1-hour meeting with a single internal attendee. -/
def evSolo : Event :=
  { id := "s4", start := ⟨some 0⟩, «end» := ⟨some 3600⟩,
    attendees := [mkAtt "alice@hginsights.com" none],
    description := [] }

/-- 1-hour meeting, two internal attendees, both declined. -/
def evAllDeclined : Event :=
  { id := "s5", start := ⟨some 0⟩, «end» := ⟨some 3600⟩,
    attendees := [mkAtt "alice@hginsights.com" (some "declined"),
                  mkAtt "bob@hginsights.com" (some "declined")],
    description := [] }

/-- 1-hour meeting, two internal attendees, one declined. -/
def evEffectiveSolo : Event :=
  { id := "s6", start := ⟨some 0⟩, «end» := ⟨some 3600⟩,
    attendees := [mkAtt "alice@hginsights.com" (some "accepted"),
                  mkAtt "bob@hginsights.com" (some "declined")],
    description := [] }

/-- A configuration whose organization domain contains an uppercase
letter. -/
def cfgUpper : Config :=
  { domain := "X.com", default_rate := 125, cost_tag := "[[MEETING_COST]]",
    internal_only := true }

/-- Same meeting as `evTwoAccepted` under an id the failing annotation
stub recognizes. -/
def evAnnotFail : Event :=
  { id := "f1", start := ⟨some 0⟩, «end» := ⟨some 3600⟩,
    attendees := [mkAtt "alice@hginsights.com" (some "accepted"),
                  mkAtt "bob@hginsights.com" (some "accepted")],
    description := [] }

/-- A user environment whose calendar fetch always raises a
non-sync-token error. -/
def envBoom : UserEnv :=
  { upstream := fun _ => .error "boom"
    sync_token := none
    annotate := fun _ => .ok () }

/-- A user environment with an empty, healthy calendar. -/
def envOk0 : UserEnv :=
  { upstream := fun _ => .ok ([], some "t2")
    sync_token := none
    annotate := fun _ => .ok () }

/-- Batch of two users: user "a" hits the upstream outage, user "b" is
healthy. -/
def envOfAB : String → UserEnv :=
  fun u => if u = "a" then envBoom else envOk0

/-- A user environment whose upstream rejects any supplied cursor with a
sync-required error and serves the windowed resync, and whose stored
token is stale. -/
def envStale : UserEnv :=
  { upstream := fun t =>
      match t with
      | some _ => .error "Sync token is no longer valid, a full sync is required. (syncToken)"
      | none => .ok ([evTwoAccepted], some "fresh")
    sync_token := some "stale"
    annotate := fun _ => .ok () }

/-- A user environment with two qualifying events whose annotation write
fails on the first and succeeds on the second. -/
def envAnnot : UserEnv :=
  { upstream := fun _ => .ok ([evAnnotFail, evTwoAccepted], some "t")
    sync_token := none
    annotate := fun e => if e.id = "f1" then .error "API error" else .ok () }

/-- A character region with no internal stopping position of the lazy
`.*?`, whatever follows it: the matcher consumes it whole.  Holds for the
tail of a rendered cost line (single line without newline, or the dual
line whose only newline is followed by `└`). -/
def NoStop (x : List Char) : Prop :=
  ∀ i < x.length, ∀ r : List Char, stopCond (x.drop i ++ r) = false

/-- No occurrence of `n` starts strictly inside `p` when `r` follows
(`splitAtNeedle` found nothing before the match at `p.length`). -/
def CleanBefore (n p r : List Char) : Prop :=
  ∀ i < p.length, ¬ n <+: (p.drop i ++ r)

/-- `n` occurs nowhere in `p`. -/
def NFree (n p : List Char) : Prop :=
  ∀ i : ℕ, ¬ n <+: p.drop i

/-- The needle has no period: no proper rotation-overlap, so no
occurrence can straddle the boundary between untouched text and a
freshly substituted cost line.  (Holds for the default tag.) -/
def NoPeriod (n : List Char) : Prop :=
  ∀ k < n.length, 0 < k → n.drop k ≠ n.take (n.length - k)

/-! ### Properties of Python rounding -/

lemma pyround_ge_floor (x : ℚ) : ⌊x⌋ ≤ pyround x := by
  unfold pyround
  split_ifs <;> omega

lemma pyround_le_floor_add_one (x : ℚ) : pyround x ≤ ⌊x⌋ + 1 := by
  unfold pyround
  split_ifs <;> omega

lemma pyround_nonneg (x : ℚ) (hx : 0 ≤ x) : 0 ≤ pyround x := by
  have h : (0:ℤ) ≤ ⌊x⌋ := Int.floor_nonneg.mpr hx
  have := pyround_ge_floor x
  omega

lemma pyround_mono {x y : ℚ} (h : x ≤ y) : pyround x ≤ pyround y := by
  rcases lt_or_eq_of_le (Int.floor_le_floor h) with hf | hf
  · calc pyround x ≤ ⌊x⌋ + 1 := pyround_le_floor_add_one x
      _ ≤ ⌊y⌋ := by omega
      _ ≤ pyround y := pyround_ge_floor y
  · have hr : x - (⌊x⌋ : ℚ) ≤ y - (⌊y⌋ : ℚ) := by
      rw [← hf]; linarith
    unfold pyround
    rw [← hf]
    split_ifs <;> first
      | omega
      | linarith

lemma pyround_le_add_half (x : ℚ) : (pyround x : ℚ) ≤ x + 1/2 := by
  have hfl : (⌊x⌋ : ℚ) ≤ x := Int.floor_le x
  unfold pyround
  split_ifs with h1 h2 h3 <;> push_cast <;> linarith

lemma pyround_ge_sub_half (x : ℚ) : x - 1/2 ≤ (pyround x : ℚ) := by
  have hfl : x < (⌊x⌋ : ℚ) + 1 := Int.lt_floor_add_one x
  unfold pyround
  split_ifs with h1 h2 h3 <;> push_cast <;> linarith

lemma pyround_tie_even (x : ℚ) (h : x - (⌊x⌋ : ℚ) = 1/2) : pyround x % 2 = 0 := by
  unfold pyround
  split_ifs with h1 h2 h3
  · exfalso; rw [h] at h1; exact lt_irrefl _ h1
  · exfalso; rw [h] at h2; exact lt_irrefl _ h2
  · exact h3
  · omega

/-! ### Structure of `compute_meeting_cost` results -/

lemma compute_qualifying_eq (cfg : Config) (e : Event) (r : Option ℚ)
    (hq : (compute_meeting_cost cfg e r).skip_reason = none) :
    compute_meeting_cost cfg e r =
      { invited_cost := pyround (event_duration_hours e *
          (internalAttendees cfg e).length * r.getD cfg.default_rate)
        effective_cost := pyround (event_duration_hours e *
          (effectiveAttendees cfg e).length * r.getD cfg.default_rate)
        invited_count := some (internalAttendees cfg e).length
        effective_count := some (effectiveAttendees cfg e).length
        hours := some (event_duration_hours e)
        skip_reason := none } ∧
    0 < event_duration_hours e ∧
    2 ≤ (internalAttendees cfg e).length ∧
    2 ≤ (effectiveAttendees cfg e).length := by
  unfold compute_meeting_cost at hq ⊢
  split_ifs at hq ⊢ with h1 h2 h3 h4 h5 h6
  · simp [skipResult] at hq
  · simp [skipResult] at hq
  · simp [skipResult] at hq
  · simp [skipResult] at hq
  · simp [skipResult] at hq
  · simp [skipResult] at hq
  · exact ⟨rfl, not_le.mp h1, by omega, by omega⟩

lemma effective_le_internal (cfg : Config) (e : Event) :
    (effectiveAttendees cfg e).length ≤ (internalAttendees cfg e).length :=
  List.length_filter_le _ _

lemma internal_le_email (cfg : Config) (e : Event) :
    (internalAttendees cfg e).length ≤ (emailAttendees e).length :=
  List.length_filter_le _ _

lemma mixed_condition (cfg : Config) (e : Event) :
    (internalAttendees cfg e).length ≠ (emailAttendees e).length ↔
      ∃ a ∈ emailAttendees e, internal_email cfg (attendeeEmail a) = false := by
  unfold internalAttendees
  rw [Ne, List.filter_length_eq_length]
  push_neg
  simp [Bool.not_eq_true]

/-! ### Concrete evaluations of `compute_meeting_cost` -/

lemma eval_evTwoAccepted :
    compute_meeting_cost defaultConfig evTwoAccepted none =
      ⟨250, 250, some 2, some 2, some 1, none⟩ := by
  have h1 : internal_email defaultConfig "alice@hginsights.com" = true := by decide
  have h2 : internal_email defaultConfig "bob@hginsights.com" = true := by decide
  have h3 : isEffective (⟨some "alice@hginsights.com", some "accepted"⟩ : Attendee) = true := by
    decide
  have h4 : isEffective (⟨some "bob@hginsights.com", some "accepted"⟩ : Attendee) = true := by
    decide
  have h5 : hasEmail (⟨some "alice@hginsights.com", some "accepted"⟩ : Attendee) = true := by
    decide
  have h6 : hasEmail (⟨some "bob@hginsights.com", some "accepted"⟩ : Attendee) = true := by
    decide
  have hd : defaultConfig.default_rate = 125 := rfl
  norm_num [compute_meeting_cost, hd, event_duration_hours, skipResult, pyround,
    emailAttendees, internalAttendees, effectiveAttendees, attendeeEmail,
    List.filter, evTwoAccepted, mkAtt, max_def, h1, h2, h3, h4, h5, h6]

lemma eval_evTwoAccepted_tieRate :
    compute_meeting_cost defaultConfig evTwoAccepted (some (501/4)) =
      ⟨250, 250, some 2, some 2, some 1, none⟩ := by
  have h1 : internal_email defaultConfig "alice@hginsights.com" = true := by decide
  have h2 : internal_email defaultConfig "bob@hginsights.com" = true := by decide
  have h3 : isEffective (⟨some "alice@hginsights.com", some "accepted"⟩ : Attendee) = true := by
    decide
  have h4 : isEffective (⟨some "bob@hginsights.com", some "accepted"⟩ : Attendee) = true := by
    decide
  have h5 : hasEmail (⟨some "alice@hginsights.com", some "accepted"⟩ : Attendee) = true := by
    decide
  have h6 : hasEmail (⟨some "bob@hginsights.com", some "accepted"⟩ : Attendee) = true := by
    decide
  have hd : defaultConfig.default_rate = 125 := rfl
  norm_num [compute_meeting_cost, hd, event_duration_hours, skipResult, pyround,
    emailAttendees, internalAttendees, effectiveAttendees, attendeeEmail,
    List.filter, evTwoAccepted, mkAtt, max_def, h1, h2, h3, h4, h5, h6]

lemma eval_evThreeLong :
    compute_meeting_cost defaultConfig evThreeLong none =
      ⟨938, 938, some 3, some 3, some (5/2), none⟩ := by
  have h1 : internal_email defaultConfig "alice@hginsights.com" = true := by decide
  have h2 : internal_email defaultConfig "bob@hginsights.com" = true := by decide
  have h2' : internal_email defaultConfig "charlie@hginsights.com" = true := by decide
  have h3 : isEffective (⟨some "alice@hginsights.com", none⟩ : Attendee) = true := by decide
  have h4 : isEffective (⟨some "bob@hginsights.com", none⟩ : Attendee) = true := by decide
  have h4' : isEffective (⟨some "charlie@hginsights.com", none⟩ : Attendee) = true := by decide
  have h5 : hasEmail (⟨some "alice@hginsights.com", none⟩ : Attendee) = true := by decide
  have h6 : hasEmail (⟨some "bob@hginsights.com", none⟩ : Attendee) = true := by decide
  have h6' : hasEmail (⟨some "charlie@hginsights.com", none⟩ : Attendee) = true := by decide
  have hd : defaultConfig.default_rate = 125 := rfl
  norm_num [compute_meeting_cost, hd, event_duration_hours, skipResult, pyround,
    emailAttendees, internalAttendees, effectiveAttendees, attendeeEmail,
    List.filter, evThreeLong, mkAtt, max_def, h1, h2, h2', h3, h4, h4', h5, h6, h6']

lemma eval_evTiny :
    compute_meeting_cost defaultConfig evTiny none =
      ⟨0, 0, some 3, some 2, some (1/3600), none⟩ := by
  have h1 : internal_email defaultConfig "alice@hginsights.com" = true := by decide
  have h2 : internal_email defaultConfig "bob@hginsights.com" = true := by decide
  have h2' : internal_email defaultConfig "carol@hginsights.com" = true := by decide
  have h3 : isEffective (⟨some "alice@hginsights.com", some "accepted"⟩ : Attendee) = true := by
    decide
  have h4 : isEffective (⟨some "bob@hginsights.com", some "declined"⟩ : Attendee) = false := by
    decide
  have h4' : isEffective (⟨some "carol@hginsights.com", some "accepted"⟩ : Attendee) = true := by
    decide
  have h5 : hasEmail (⟨some "alice@hginsights.com", some "accepted"⟩ : Attendee) = true := by
    decide
  have h6 : hasEmail (⟨some "bob@hginsights.com", some "declined"⟩ : Attendee) = true := by
    decide
  have h6' : hasEmail (⟨some "carol@hginsights.com", some "accepted"⟩ : Attendee) = true := by
    decide
  have hd : defaultConfig.default_rate = 125 := rfl
  norm_num [compute_meeting_cost, hd, event_duration_hours, skipResult, pyround,
    emailAttendees, internalAttendees, effectiveAttendees, attendeeEmail,
    List.filter, evTiny, mkAtt, max_def, h1, h2, h2', h3, h4, h4', h5, h6, h6']

lemma eval_evAllDay :
    (compute_meeting_cost defaultConfig evAllDay none).skip_reason =
      some "no_duration" := by
  have hd : defaultConfig.default_rate = 125 := rfl
  norm_num [compute_meeting_cost, hd, event_duration_hours, skipResult, evAllDay]

lemma eval_evMixed :
    (compute_meeting_cost defaultConfig evMixed none).skip_reason =
      some "mixed_meeting" := by
  have h1 : internal_email defaultConfig "alice@hginsights.com" = true := by decide
  have h2 : internal_email defaultConfig "ext@other.com" = false := by decide
  have h5 : hasEmail (⟨some "alice@hginsights.com", none⟩ : Attendee) = true := by decide
  have h6 : hasEmail (⟨some "ext@other.com", none⟩ : Attendee) = true := by decide
  have hd : defaultConfig.default_rate = 125 := rfl
  have hio : defaultConfig.internal_only = true := rfl
  norm_num [compute_meeting_cost, hd, event_duration_hours, skipResult,
    emailAttendees, internalAttendees, effectiveAttendees, attendeeEmail,
    List.filter, evMixed, mkAtt, max_def, h1, h2, h5, h6, hio]

lemma eval_evExternal :
    (compute_meeting_cost defaultConfig evExternal none).skip_reason =
      some "no_internal_attendees" := by
  have h5 : hasEmail (⟨none, none⟩ : Attendee) = false := by decide
  have hio : defaultConfig.internal_only = true := rfl
  have hd : defaultConfig.default_rate = 125 := rfl
  norm_num [compute_meeting_cost, hd, event_duration_hours, skipResult,
    emailAttendees, internalAttendees, effectiveAttendees, attendeeEmail,
    List.filter, evExternal, mkAtt, max_def, h5, hio]

lemma eval_evSolo :
    (compute_meeting_cost defaultConfig evSolo none).skip_reason =
      some "solo_meeting" := by
  have h1 : internal_email defaultConfig "alice@hginsights.com" = true := by decide
  have h5 : hasEmail (⟨some "alice@hginsights.com", none⟩ : Attendee) = true := by decide
  have hd : defaultConfig.default_rate = 125 := rfl
  norm_num [compute_meeting_cost, hd, event_duration_hours, skipResult,
    emailAttendees, internalAttendees, effectiveAttendees, attendeeEmail,
    List.filter, evSolo, mkAtt, max_def, h1, h5]

lemma eval_evAllDeclined :
    (compute_meeting_cost defaultConfig evAllDeclined none).skip_reason =
      some "all_declined" := by
  have h1 : internal_email defaultConfig "alice@hginsights.com" = true := by decide
  have h2 : internal_email defaultConfig "bob@hginsights.com" = true := by decide
  have h3 : isEffective (⟨some "alice@hginsights.com", some "declined"⟩ : Attendee) = false := by
    decide
  have h4 : isEffective (⟨some "bob@hginsights.com", some "declined"⟩ : Attendee) = false := by
    decide
  have h5 : hasEmail (⟨some "alice@hginsights.com", some "declined"⟩ : Attendee) = true := by
    decide
  have h6 : hasEmail (⟨some "bob@hginsights.com", some "declined"⟩ : Attendee) = true := by
    decide
  have hd : defaultConfig.default_rate = 125 := rfl
  norm_num [compute_meeting_cost, hd, event_duration_hours, skipResult,
    emailAttendees, internalAttendees, effectiveAttendees, attendeeEmail,
    List.filter, evAllDeclined, mkAtt, max_def, h1, h2, h3, h4, h5, h6]

lemma eval_evEffectiveSolo :
    (compute_meeting_cost defaultConfig evEffectiveSolo none).skip_reason =
      some "effective_solo_meeting" := by
  have h1 : internal_email defaultConfig "alice@hginsights.com" = true := by decide
  have h2 : internal_email defaultConfig "bob@hginsights.com" = true := by decide
  have h3 : isEffective (⟨some "alice@hginsights.com", some "accepted"⟩ : Attendee) = true := by
    decide
  have h4 : isEffective (⟨some "bob@hginsights.com", some "declined"⟩ : Attendee) = false := by
    decide
  have h5 : hasEmail (⟨some "alice@hginsights.com", some "accepted"⟩ : Attendee) = true := by
    decide
  have h6 : hasEmail (⟨some "bob@hginsights.com", some "declined"⟩ : Attendee) = true := by
    decide
  have hd : defaultConfig.default_rate = 125 := rfl
  norm_num [compute_meeting_cost, hd, event_duration_hours, skipResult,
    emailAttendees, internalAttendees, effectiveAttendees, attendeeEmail,
    List.filter, evEffectiveSolo, mkAtt, max_def, h1, h2, h3, h4, h5, h6]

lemma eval_evAnnotFail :
    compute_meeting_cost defaultConfig evAnnotFail none =
      ⟨250, 250, some 2, some 2, some 1, none⟩ := by
  have h1 : internal_email defaultConfig "alice@hginsights.com" = true := by decide
  have h2 : internal_email defaultConfig "bob@hginsights.com" = true := by decide
  have h3 : isEffective (⟨some "alice@hginsights.com", some "accepted"⟩ : Attendee) = true := by
    decide
  have h4 : isEffective (⟨some "bob@hginsights.com", some "accepted"⟩ : Attendee) = true := by
    decide
  have h5 : hasEmail (⟨some "alice@hginsights.com", some "accepted"⟩ : Attendee) = true := by
    decide
  have h6 : hasEmail (⟨some "bob@hginsights.com", some "accepted"⟩ : Attendee) = true := by
    decide
  have hd : defaultConfig.default_rate = 125 := rfl
  norm_num [compute_meeting_cost, hd, event_duration_hours, skipResult, pyround,
    emailAttendees, internalAttendees, effectiveAttendees, attendeeEmail,
    List.filter, evAnnotFail, mkAtt, max_def, h1, h2, h3, h4, h5, h6]

/-- Skip results: when the skip reason is set, the result is exactly one
of the six `skipResult` dictionaries. -/
lemma compute_skip_eq (cfg : Config) (e : Event) (r : Option ℚ)
    (hs : (compute_meeting_cost cfg e r).skip_reason ≠ none) :
    compute_meeting_cost cfg e r = skipResult "no_duration" ∨
    compute_meeting_cost cfg e r = skipResult "mixed_meeting" ∨
    compute_meeting_cost cfg e r = skipResult "no_internal_attendees" ∨
    compute_meeting_cost cfg e r = skipResult "solo_meeting" ∨
    compute_meeting_cost cfg e r = skipResult "all_declined" ∨
    compute_meeting_cost cfg e r = skipResult "effective_solo_meeting" := by
  unfold compute_meeting_cost at hs ⊢
  split_ifs at hs ⊢ with h1 h2 h3 h4 h5 h6 <;> simp_all

/-! ### Claim theorems -/

/-- **C1** — counterexample.  The 1-second meeting `evTiny` qualifies
(non-zero duration, 3 internal attendees, 2 effective, no external), yet
its effective and invited costs are equal (both round to 0) while its
effective and invited counts differ (2 ≠ 3): the claimed "effective_cost
equals invited_cost if and only if effective_count equals invited_count"
fails in the only-if direction. -/
theorem c1_counterexample :
    (compute_meeting_cost defaultConfig evTiny none).skip_reason = none ∧
    (compute_meeting_cost defaultConfig evTiny none).effective_count = some 2 ∧
    (compute_meeting_cost defaultConfig evTiny none).invited_count = some 3 ∧
    (compute_meeting_cost defaultConfig evTiny none).effective_cost =
      (compute_meeting_cost defaultConfig evTiny none).invited_cost := by
  rw [eval_evTiny]
  exact ⟨rfl, rfl, rfl, rfl⟩

/-- **C1** (amended).  For every qualifying (non-skip) result of
`compute_meeting_cost` under a nonnegative hourly rate:
`effective_count ≤ invited_count ≤` number of attendees with a non-empty
email, `effective_cost ≤ invited_cost`, and the costs are equal **if**
the counts are equal (the converse is refuted by `c1_counterexample`). -/
theorem c1_qualifying_cost_invariants (cfg : Config) (e : Event) (r : Option ℚ)
    (hrate : 0 ≤ r.getD cfg.default_rate)
    (hq : (compute_meeting_cost cfg e r).skip_reason = none) :
    ∃ ni ne : ℕ,
      (compute_meeting_cost cfg e r).invited_count = some ni ∧
      (compute_meeting_cost cfg e r).effective_count = some ne ∧
      ne ≤ ni ∧ ni ≤ (emailAttendees e).length ∧
      (compute_meeting_cost cfg e r).effective_cost ≤
        (compute_meeting_cost cfg e r).invited_cost ∧
      (ne = ni →
        (compute_meeting_cost cfg e r).effective_cost =
          (compute_meeting_cost cfg e r).invited_cost) := by
  obtain ⟨heq, hdur, hni, hne⟩ := compute_qualifying_eq cfg e r hq
  rw [heq]
  refine ⟨_, _, rfl, rfl, effective_le_internal cfg e, internal_le_email cfg e, ?_, ?_⟩
  · apply pyround_mono
    have h0 : (0:ℚ) ≤ event_duration_hours e := le_of_lt hdur
    have hc : ((effectiveAttendees cfg e).length : ℚ) ≤
        ((internalAttendees cfg e).length : ℚ) := by
      exact_mod_cast effective_le_internal cfg e
    exact mul_le_mul_of_nonneg_right (mul_le_mul_of_nonneg_left hc h0) hrate
  · intro hee
    simp only [hee]

/-- Witness for `c1_qualifying_cost_invariants` at the 1-hour two-person
meeting under the default rate. -/
theorem c1_qualifying_cost_invariants_witness :
    0 ≤ (none : Option ℚ).getD defaultConfig.default_rate ∧
    (compute_meeting_cost defaultConfig evTwoAccepted none).skip_reason = none ∧
    ∃ ni ne : ℕ,
      (compute_meeting_cost defaultConfig evTwoAccepted none).invited_count = some ni ∧
      (compute_meeting_cost defaultConfig evTwoAccepted none).effective_count = some ne ∧
      ne ≤ ni ∧ ni ≤ (emailAttendees evTwoAccepted).length ∧
      (compute_meeting_cost defaultConfig evTwoAccepted none).effective_cost ≤
        (compute_meeting_cost defaultConfig evTwoAccepted none).invited_cost ∧
      (ne = ni →
        (compute_meeting_cost defaultConfig evTwoAccepted none).effective_cost =
          (compute_meeting_cost defaultConfig evTwoAccepted none).invited_cost) := by
  have hrate : 0 ≤ (none : Option ℚ).getD defaultConfig.default_rate := by
    norm_num [defaultConfig]
  have hq : (compute_meeting_cost defaultConfig evTwoAccepted none).skip_reason = none := by
    rw [eval_evTwoAccepted]
  exact ⟨hrate, hq, c1_qualifying_cost_invariants defaultConfig evTwoAccepted none hrate hq⟩

/-- **C2** — counterexample.  At the exactly representable rate 125.25
the 1-hour two-person meeting's product is the tie 250.5; the code
rounds it half-to-even to 250, while the claimed
round-half-away-from-zero rule gives 251. -/
theorem c2_counterexample :
    (compute_meeting_cost defaultConfig evTwoAccepted (some (501/4))).invited_cost = 250 ∧
    event_duration_hours evTwoAccepted *
      ((internalAttendees defaultConfig evTwoAccepted).length : ℚ) * (501/4) = 501/2 ∧
    roundHalfAwayFromZero (501/2) = 251 := by
  refine ⟨by rw [eval_evTwoAccepted_tieRate], ?_, ?_⟩
  · have hlen : (internalAttendees defaultConfig evTwoAccepted).length = 2 := by decide
    have hdur : event_duration_hours evTwoAccepted = 1 := by
      norm_num [event_duration_hours, evTwoAccepted, max_def]
    rw [hlen, hdur]
    norm_num
  · norm_num [roundHalfAwayFromZero]

/-- **C2** (amended).  Both costs of a qualifying result are
`pyround(duration_hours × count × hourly_rate)` where `pyround` rounds to
the nearest integer with ties to even (Python's `round`), a fixed
consistent rule; the two boundary examples of the claim hold: 1 hour ×
2 attendees × rate 125 gives 250, and 2.5 hours × 3 attendees × rate 125
gives 938 (from the tie 937.5).  Ties round half to even, not half away
from zero (see `c2_counterexample`). -/
theorem c2_round_half_even :
    (∀ (cfg : Config) (e : Event) (r : Option ℚ),
      (compute_meeting_cost cfg e r).skip_reason = none →
        (compute_meeting_cost cfg e r).invited_cost =
          pyround (event_duration_hours e *
            ((internalAttendees cfg e).length : ℚ) * r.getD cfg.default_rate) ∧
        (compute_meeting_cost cfg e r).effective_cost =
          pyround (event_duration_hours e *
            ((effectiveAttendees cfg e).length : ℚ) * r.getD cfg.default_rate)) ∧
    (∀ x : ℚ, x - 1/2 ≤ (pyround x : ℚ) ∧ (pyround x : ℚ) ≤ x + 1/2 ∧
      (x - (⌊x⌋ : ℚ) = 1/2 → pyround x % 2 = 0)) ∧
    (compute_meeting_cost defaultConfig evTwoAccepted none).invited_cost = 250 ∧
    (compute_meeting_cost defaultConfig evThreeLong none).invited_cost = 938 := by
  refine ⟨?_, ?_, by rw [eval_evTwoAccepted], by rw [eval_evThreeLong]⟩
  · intro cfg e r hq
    obtain ⟨heq, -, -, -⟩ := compute_qualifying_eq cfg e r hq
    rw [heq]
    exact ⟨rfl, rfl⟩
  · intro x
    exact ⟨pyround_ge_sub_half x, pyround_le_add_half x, pyround_tie_even x⟩

/-- Witness for `c2_round_half_even`: the qualifying hypothesis
discharged at the 1-hour two-person meeting, and the tie hypothesis
discharged at 250.5. -/
theorem c2_round_half_even_witness :
    ((compute_meeting_cost defaultConfig evTwoAccepted none).skip_reason = none ∧
     (compute_meeting_cost defaultConfig evTwoAccepted none).invited_cost =
       pyround (event_duration_hours evTwoAccepted *
         ((internalAttendees defaultConfig evTwoAccepted).length : ℚ) *
         (none : Option ℚ).getD defaultConfig.default_rate)) ∧
    ((501:ℚ)/2 - (⌊(501:ℚ)/2⌋ : ℚ) = 1/2 ∧ pyround (501/2) % 2 = 0) := by
  constructor
  · have hq : (compute_meeting_cost defaultConfig evTwoAccepted none).skip_reason = none := by
      rw [eval_evTwoAccepted]
    exact ⟨hq, (c2_round_half_even.1 defaultConfig evTwoAccepted none hq).1⟩
  · have ht : (501:ℚ)/2 - (⌊(501:ℚ)/2⌋ : ℚ) = 1/2 := by norm_num
    exact ⟨ht, (c2_round_half_even.2.1 (501/2)).2.2 ht⟩

/-- **C3** (confirmed).  The skip reason of every `compute_meeting_cost`
result equals the spec's ordered cascade (`skip_reason_spec`, written
from the claim's wording: zero duration, then mixed meeting under the
internal-only flag, then zero/one internal attendee, then zero/one
effective attendee, with the six exact reason strings), and each of the
six reasons is produced by a concrete fixture event. -/
theorem c3_skip_reason_cascade :
    (∀ (cfg : Config) (e : Event) (r : Option ℚ),
      (compute_meeting_cost cfg e r).skip_reason = skip_reason_spec cfg e) ∧
    (compute_meeting_cost defaultConfig evAllDay none).skip_reason = some "no_duration" ∧
    (compute_meeting_cost defaultConfig evMixed none).skip_reason = some "mixed_meeting" ∧
    (compute_meeting_cost defaultConfig evExternal none).skip_reason =
      some "no_internal_attendees" ∧
    (compute_meeting_cost defaultConfig evSolo none).skip_reason = some "solo_meeting" ∧
    (compute_meeting_cost defaultConfig evAllDeclined none).skip_reason =
      some "all_declined" ∧
    (compute_meeting_cost defaultConfig evEffectiveSolo none).skip_reason =
      some "effective_solo_meeting" := by
  refine ⟨fun cfg e r => ?_, eval_evAllDay, eval_evMixed, eval_evExternal,
    eval_evSolo, eval_evAllDeclined, eval_evEffectiveSolo⟩
  unfold compute_meeting_cost skip_reason_spec
  have hiff : (cfg.internal_only = true ∧
      (internalAttendees cfg e).length ≠ (emailAttendees e).length) ↔
      (cfg.internal_only = true ∧
        ∃ a ∈ emailAttendees e, internal_email cfg (attendeeEmail a) = false) :=
    and_congr_right fun _ => mixed_condition cfg e
  simp only [hiff]
  split_ifs <;> simp [skipResult]

/-- **C9** — counterexample.  With the configured domain `"X.com"` (an
uppercase letter in the domain), the code classifies `"a@x.com"` as
external because only the email side is lowercased, while the claimed
case-insensitive-on-both-sides rule classifies it as internal. -/
theorem c9_internal_email_counterexample :
    internal_email cfgUpper "a@x.com" = false ∧
    internal_email_spec cfgUpper.domain "a@x.com" = true := by
  decide

/-- **C9** (amended).  `internal_email` lowercases only the email and
tests the suffix `"@" ++ domain` verbatim; this coincides with the
claimed case-insensitive-on-both-sides comparison exactly when the
configured domain is already lowercase. -/
theorem c9_internal_email_amended (cfg : Config) (email : String)
    (hld : lowerStr cfg.domain = cfg.domain) :
    internal_email cfg email = internal_email_spec cfg.domain email := by
  unfold internal_email internal_email_spec
  rw [hld]

/-- Witness for `c9_internal_email_amended` at the default (lowercase)
domain and a mixed-case email. -/
theorem c9_internal_email_amended_witness :
    lowerStr defaultConfig.domain = defaultConfig.domain ∧
    internal_email defaultConfig "Alice@HGInsights.com" =
      internal_email_spec defaultConfig.domain "Alice@HGInsights.com" :=
  ⟨by decide, c9_internal_email_amended defaultConfig "Alice@HGInsights.com" (by decide)⟩

/-- **C10** (confirmed, for a nonnegative hourly rate).  Every result of
`compute_meeting_cost` is either a skip result (`invited_cost = -1`,
`effective_cost = -1`, reason among the six strings) or a qualifying
result (both costs nonnegative, both counts at least 2, positive hours,
no reason); a negative effective cost — the driver's sole test in
`main.py` — holds exactly on skip results. -/
theorem c10_result_shape_dichotomy (cfg : Config) (e : Event) (r : Option ℚ)
    (hrate : 0 ≤ r.getD cfg.default_rate) :
    ((compute_meeting_cost cfg e r).effective_cost < 0 ↔
      (compute_meeting_cost cfg e r).skip_reason ≠ none) ∧
    ((compute_meeting_cost cfg e r).skip_reason = none →
      0 ≤ (compute_meeting_cost cfg e r).invited_cost ∧
      0 ≤ (compute_meeting_cost cfg e r).effective_cost ∧
      (∃ n, (compute_meeting_cost cfg e r).invited_count = some n ∧ 2 ≤ n) ∧
      (∃ m, (compute_meeting_cost cfg e r).effective_count = some m ∧ 2 ≤ m) ∧
      (∃ h, (compute_meeting_cost cfg e r).hours = some h ∧ 0 < h)) ∧
    ((compute_meeting_cost cfg e r).skip_reason ≠ none →
      (compute_meeting_cost cfg e r).invited_cost = -1 ∧
      (compute_meeting_cost cfg e r).effective_cost = -1 ∧
      ((compute_meeting_cost cfg e r).skip_reason = some "no_duration" ∨
       (compute_meeting_cost cfg e r).skip_reason = some "mixed_meeting" ∨
       (compute_meeting_cost cfg e r).skip_reason = some "no_internal_attendees" ∨
       (compute_meeting_cost cfg e r).skip_reason = some "solo_meeting" ∨
       (compute_meeting_cost cfg e r).skip_reason = some "all_declined" ∨
       (compute_meeting_cost cfg e r).skip_reason = some "effective_solo_meeting")) := by
  by_cases hq : (compute_meeting_cost cfg e r).skip_reason = none
  · obtain ⟨heq, hdur, hni, hne⟩ := compute_qualifying_eq cfg e r hq
    have h0 : (0:ℚ) ≤ event_duration_hours e := le_of_lt hdur
    have hinv : 0 ≤ pyround (event_duration_hours e *
        ((internalAttendees cfg e).length : ℚ) * r.getD cfg.default_rate) := by
      apply pyround_nonneg
      exact mul_nonneg (mul_nonneg h0 (Nat.cast_nonneg _)) hrate
    have heff : 0 ≤ pyround (event_duration_hours e *
        ((effectiveAttendees cfg e).length : ℚ) * r.getD cfg.default_rate) := by
      apply pyround_nonneg
      exact mul_nonneg (mul_nonneg h0 (Nat.cast_nonneg _)) hrate
    rw [heq]
    refine ⟨by simpa using heff, ?_, by simp⟩
    intro _
    exact ⟨hinv, heff, ⟨_, rfl, hni⟩, ⟨_, rfl, hne⟩, ⟨_, rfl, hdur⟩⟩
  · rcases compute_skip_eq cfg e r hq with h | h | h | h | h | h <;>
      rw [h] <;> simp [skipResult]

/-- Witness for `c10_result_shape_dichotomy` at the default rate and the
1-hour two-person meeting. -/
theorem c10_result_shape_dichotomy_witness :
    0 ≤ (none : Option ℚ).getD defaultConfig.default_rate ∧
    ((compute_meeting_cost defaultConfig evTwoAccepted none).skip_reason = none →
      0 ≤ (compute_meeting_cost defaultConfig evTwoAccepted none).invited_cost ∧
      0 ≤ (compute_meeting_cost defaultConfig evTwoAccepted none).effective_cost ∧
      (∃ n, (compute_meeting_cost defaultConfig evTwoAccepted none).invited_count =
        some n ∧ 2 ≤ n) ∧
      (∃ m, (compute_meeting_cost defaultConfig evTwoAccepted none).effective_count =
        some m ∧ 2 ≤ m) ∧
      (∃ h, (compute_meeting_cost defaultConfig evTwoAccepted none).hours =
        some h ∧ 0 < h)) := by
  have hrate : 0 ≤ (none : Option ℚ).getD defaultConfig.default_rate := by
    norm_num [defaultConfig]
  exact ⟨hrate,
    (c10_result_shape_dichotomy defaultConfig evTwoAccepted none hrate).2.1⟩

/-- **C6** (confirmed).  `list_changed_events` returns the
`(None, None)` sentinel exactly when the upstream fetch fails with a
sync-required error (the code's `"syncToken" in str(e) and "full sync" in
str(e).lower()` test); any other upstream failure propagates; on the
sentinel the caller retries exactly once with no cursor, and the
windowed resync's events and fresh cursor become the result. -/
theorem c6_cursor_invalid_sentinel (env : UserEnv) :
    ((list_changed_events env.upstream env.sync_token = .ok (none, none)) ↔
      (∃ e, env.upstream env.sync_token = .error e ∧ syncRequired e = true)) ∧
    (∀ e, env.upstream env.sync_token = .error e → syncRequired e = false →
      list_changed_events env.upstream env.sync_token = .error e) ∧
    (∀ e, env.upstream env.sync_token = .error e → syncRequired e = true →
      resolveItems env = list_changed_events env.upstream none) ∧
    (∀ e evs tok, env.upstream env.sync_token = .error e → syncRequired e = true →
      env.upstream none = .ok (evs, tok) →
      resolveItems env = .ok (some evs, tok)) := by
  refine ⟨?_, ?_, ?_, ?_⟩
  · cases hcall : env.upstream env.sync_token with
    | ok p =>
      simp [list_changed_events, hcall]
    | error e =>
      by_cases hs : syncRequired e = true
      · simp [list_changed_events, hcall, hs]
      · simp only [Bool.not_eq_true] at hs
        simp [list_changed_events, hcall, hs]
  · intro e hcall hs
    simp [list_changed_events, hcall, hs]
  · intro e hcall hs
    unfold resolveItems
    rw [show list_changed_events env.upstream env.sync_token = .ok (none, none) by
      simp [list_changed_events, hcall, hs]]
  · intro e evs tok hcall hs hfull
    unfold resolveItems
    rw [show list_changed_events env.upstream env.sync_token = .ok (none, none) by
      simp [list_changed_events, hcall, hs]]
    simp [list_changed_events, hfull]

/-- Witness for `c6_cursor_invalid_sentinel`: the stale-cursor
environment `envStale` hits the sync-required branch and the no-cursor
retry yields the windowed events and the fresh token. -/
theorem c6_cursor_invalid_sentinel_witness :
    envStale.upstream envStale.sync_token =
      .error "Sync token is no longer valid, a full sync is required. (syncToken)" ∧
    syncRequired "Sync token is no longer valid, a full sync is required. (syncToken)" = true ∧
    envStale.upstream none = .ok ([evTwoAccepted], some "fresh") ∧
    resolveItems envStale = .ok (some [evTwoAccepted], some "fresh") := by
  refine ⟨rfl, by decide, rfl, ?_⟩
  exact (c6_cursor_invalid_sentinel envStale).2.2.2
    "Sync token is no longer valid, a full sync is required. (syncToken)"
    [evTwoAccepted] (some "fresh") rfl (by decide) rfl

/-- **C7** (code bug in view of the spec).  `cron` has no per-user
exception handling: with user "a" hitting a non-sync upstream outage and
user "b" healthy, the whole batch evaluates to the propagated error —
user "b" is never processed and no per-user failure is reported —
although user "b" alone processes fine. -/
theorem c7_per_user_failure_aborts_batch :
    cron defaultConfig ["a", "b"] envOfAB = .error "boom" ∧
    processUser defaultConfig envOk0 = .ok (0, 0) := by
  constructor
  · have : processUser defaultConfig (envOfAB "a") = .error "boom" := by
      have hsr : syncRequired "boom" = false := by decide
      simp [processUser, resolveItems, list_changed_events, envOfAB, envBoom, hsr]
    simp [cron, this]
  · rfl

/-- **C8** — counterexample.  A run with two qualifying events whose
annotation write fails on the first and succeeds on the second returns
`(processed, skipped) = (1, 0)`: the failed event is dropped without
being counted anywhere, so the claim's "counted" has no witness in the
run's result. -/
theorem c8_counterexample :
    cron defaultConfig ["u"] (fun _ => envAnnot) = .ok (1, 0) := by
  have hstep1 : processEvent defaultConfig envAnnot (0, 0) evAnnotFail = (0, 0) := by
    unfold processEvent
    rw [eval_evAnnotFail]
    simp [envAnnot, evAnnotFail]
  have hstep2 : processEvent defaultConfig envAnnot (0, 0) evTwoAccepted = (1, 0) := by
    unfold processEvent
    rw [eval_evTwoAccepted]
    simp [envAnnot, evTwoAccepted]
  have hres : resolveItems envAnnot = .ok (some [evAnnotFail, evTwoAccepted], some "t") := rfl
  have hpu : processUser defaultConfig envAnnot = .ok (1, 0) := by
    unfold processUser
    rw [hres]
    simp only [List.foldl_cons, List.foldl_nil, hstep1, hstep2]
  unfold cron
  rw [hpu]
  rfl

/-- **C8** (amended).  A failing annotation write is caught where it
happens: the event changes neither counter and the fold over the user's
events proceeds exactly as if the failed event were absent; moreover a
user whose fetch resolves never errors, so annotation failures cannot
abort that user's run or reach subsequent users. -/
theorem c8_annotation_failure_contained (cfg : Config) (env : UserEnv)
    (pre post : List Event) (ev : Event) (msg : String)
    (hq : ¬ (compute_meeting_cost cfg ev none).effective_cost < 0)
    (hf : env.annotate ev = .error msg) (c : ℕ × ℕ) :
    ((pre ++ ev :: post).foldl (processEvent cfg env) c =
      (pre ++ post).foldl (processEvent cfg env) c) ∧
    (∀ items tok, resolveItems env = .ok (some items, tok) →
      processUser cfg env = .ok (items.foldl (processEvent cfg env) (0, 0))) := by
  constructor
  · have hstep : processEvent cfg env (pre.foldl (processEvent cfg env) c) ev =
        pre.foldl (processEvent cfg env) c := by
      unfold processEvent
      rw [if_neg hq, hf]
    rw [List.foldl_append, List.foldl_append, List.foldl_cons, hstep]
  · intro items tok hres
    simp [processUser, hres]

/-- Witness for `c8_annotation_failure_contained`: the two-event user of
`envAnnot`, whose first event's write fails. -/
theorem c8_annotation_failure_contained_witness :
    (¬ (compute_meeting_cost defaultConfig evAnnotFail none).effective_cost < 0) ∧
    envAnnot.annotate evAnnotFail = .error "API error" ∧
    (([] ++ evAnnotFail :: [evTwoAccepted]).foldl
        (processEvent defaultConfig envAnnot) (0, 0) =
      ([] ++ [evTwoAccepted]).foldl (processEvent defaultConfig envAnnot) (0, 0)) := by
  have hq : ¬ (compute_meeting_cost defaultConfig evAnnotFail none).effective_cost < 0 := by
    rw [eval_evAnnotFail]
    decide
  have hf : envAnnot.annotate evAnnotFail = .error "API error" := rfl
  exact ⟨hq, hf,
    (c8_annotation_failure_contained defaultConfig envAnnot [] [evTwoAccepted]
      evAnnotFail "API error" hq hf (0, 0)).1⟩

/-! ### Lemmas about the substitution machinery -/

lemma splitAtNeedle_sound (n : List Char) :
    ∀ (s p r : List Char), splitAtNeedle n s = some (p, r) →
      s = p ++ r ∧ n <+: r ∧ CleanBefore n p r := by
  intro s
  induction s with
  | nil =>
    intro p r h
    unfold splitAtNeedle at h
    split_ifs at h with hp
    · injection h with h'
      injection h' with h1 h2
      subst h1; subst h2
      exact ⟨rfl, List.isPrefixOf_iff_prefix.mp hp,
        fun i hi => absurd hi (by simp)⟩
  | cons c cs ih =>
    intro p r h
    unfold splitAtNeedle at h
    split_ifs at h with hp
    · injection h with h'
      injection h' with h1 h2
      subst h1; subst h2
      exact ⟨rfl, List.isPrefixOf_iff_prefix.mp hp,
        fun i hi => absurd hi (by simp)⟩
    · obtain ⟨⟨p', r'⟩, hsub, hmap⟩ := Option.map_eq_some'.mp h
      simp only at hmap
      injection hmap with h1 h2
      subst h1; subst h2
      obtain ⟨hcs, hpre, hclean⟩ := ih p' r' hsub
      refine ⟨by rw [hcs]; rfl, hpre, ?_⟩
      intro i hi
      cases i with
      | zero =>
        simp only [List.drop_zero]
        intro hcon
        rw [List.cons_append, ← hcs] at hcon
        exact hp (List.isPrefixOf_iff_prefix.mpr hcon)
      | succ j =>
        simp only [List.drop_succ_cons]
        exact hclean j (by simpa using hi)

lemma splitAtNeedle_none (n : List Char) :
    ∀ (s : List Char), splitAtNeedle n s = none → NFree n s := by
  intro s
  induction s with
  | nil =>
    intro h i
    unfold splitAtNeedle at h
    split_ifs at h with hp
    simp only [List.drop_nil]
    exact fun hcon => hp (List.isPrefixOf_iff_prefix.mpr hcon)
  | cons c cs ih =>
    intro h i
    unfold splitAtNeedle at h
    split_ifs at h with hp
    have hsub : splitAtNeedle n cs = none := Option.map_eq_none'.mp h
    cases i with
    | zero =>
      simp only [List.drop_zero]
      exact fun hcon => hp (List.isPrefixOf_iff_prefix.mpr hcon)
    | succ j =>
      simp only [List.drop_succ_cons]
      exact ih hsub j

lemma splitAtNeedle_complete (n : List Char) :
    ∀ (p r : List Char), n <+: r → CleanBefore n p r →
      splitAtNeedle n (p ++ r) = some (p, r) := by
  intro p
  induction p with
  | nil =>
    intro r hpre _
    simp only [List.nil_append]
    cases r with
    | nil =>
      unfold splitAtNeedle
      split_ifs with hp
      · rfl
      · exact absurd (List.isPrefixOf_iff_prefix.mpr hpre) hp
    | cons c cs =>
      unfold splitAtNeedle
      split_ifs with hp
      · rfl
      · exact absurd (List.isPrefixOf_iff_prefix.mpr hpre) hp
  | cons c p' ih =>
    intro r hpre hclean
    have h0 : ¬ n <+: (c :: (p' ++ r)) := by
      have := hclean 0 (by simp)
      simpa using this
    have hrec := ih r hpre (fun i hi => by
      have := hclean (i + 1) (by simpa using hi)
      simpa using this)
    show splitAtNeedle n (c :: (p' ++ r)) = some (c :: p', r)
    unfold splitAtNeedle
    split_ifs with hp
    · exact absurd (List.isPrefixOf_iff_prefix.mp hp) h0
    · rw [hrec]; rfl

lemma splitAtNeedle_none_of_nfree (n : List Char) (hn : n ≠ []) :
    ∀ (s : List Char), NFree n s → splitAtNeedle n s = none := by
  intro s
  induction s with
  | nil =>
    intro _
    unfold splitAtNeedle
    split_ifs with hp
    · exact absurd (List.prefix_nil.mp (List.isPrefixOf_iff_prefix.mp hp)) hn
    · rfl
  | cons c cs ih =>
    intro hf
    unfold splitAtNeedle
    split_ifs with hp
    · exact absurd (by simpa using List.isPrefixOf_iff_prefix.mp hp) (hf 0)
    · rw [ih (fun i => by simpa using hf (i + 1))]
      rfl

lemma lazySplit_append (s : List Char) :
    (lazySplit s).1 ++ (lazySplit s).2 = s := by
  induction s with
  | nil => rfl
  | cons c rest ih =>
    unfold lazySplit
    split_ifs with h
    · rfl
    · simpa using ih

lemma lazySplit_good (s : List Char) : stopCond (lazySplit s).2 = true := by
  induction s with
  | nil => rfl
  | cons c rest ih =>
    unfold lazySplit
    split_ifs with h
    · simp only [stopCond]
      exact decide_eq_true_eq.mpr h
    · simpa using ih

lemma lazySplit_snd_length (s : List Char) : (lazySplit s).2.length ≤ s.length := by
  conv_rhs => rw [← lazySplit_append s]
  simp

lemma lazySplit_complete (x : List Char) :
    ∀ (r : List Char), (∀ i < x.length, stopCond (x.drop i ++ r) = false) →
      stopCond r = true → lazySplit (x ++ r) = (x, r) := by
  induction x with
  | nil =>
    intro r _ hr
    simp only [List.nil_append]
    cases r with
    | nil => rfl
    | cons c rest =>
      simp only [stopCond, decide_eq_true_eq] at hr
      unfold lazySplit
      split_ifs
      rfl
  | cons c x' ih =>
    intro r hx hr
    have h0 : stopCond (c :: (x' ++ r)) = false := by simpa using hx 0 (by simp)
    simp only [stopCond, decide_eq_false_iff_not] at h0
    have hrec := ih r (fun i hi => by simpa using hx (i + 1) (by simpa using hi)) hr
    show lazySplit (c :: (x' ++ r)) = (c :: x', r)
    unfold lazySplit
    split_ifs
    rw [hrec]

lemma splitAtNeedle_nil (n : List Char) (hn : n ≠ []) :
    splitAtNeedle n [] = none := by
  unfold splitAtNeedle
  split_ifs with hp
  · exact absurd (List.prefix_nil.mp (List.isPrefixOf_iff_prefix.mp hp)) hn
  · rfl

lemma subAllFuel_nil (n cl : List Char) (hn : n ≠ []) (fuel : ℕ) :
    subAllFuel n cl fuel [] = [] := by
  cases fuel with
  | zero => rfl
  | succ g =>
    unfold subAllFuel
    rw [splitAtNeedle_nil n hn]

lemma splitAtNeedle_rem_lt (n : List Char) (hn : n ≠ []) {s p r : List Char}
    (hsplit : splitAtNeedle n s = some (p, r)) :
    (lazySplit (r.drop n.length)).2.length < s.length := by
  obtain ⟨hs, hpre, -⟩ := splitAtNeedle_sound n s p r hsplit
  have hnr : n.length ≤ r.length := hpre.length_le
  have h1 : (lazySplit (r.drop n.length)).2.length ≤ (r.drop n.length).length :=
    lazySplit_snd_length _
  have h2 : (r.drop n.length).length = r.length - n.length := by simp
  have hn1 : 1 ≤ n.length := by
    cases n with
    | nil => exact absurd rfl hn
    | cons a b => simp
  have h3 : s.length = p.length + r.length := by rw [hs]; simp
  omega

lemma subAllFuel_congr (n cl : List Char) (hn : n ≠ []) :
    ∀ (f1 f2 : ℕ) (s : List Char), s.length ≤ f1 → s.length ≤ f2 →
      subAllFuel n cl f1 s = subAllFuel n cl f2 s := by
  intro f1
  induction f1 with
  | zero =>
    intro f2 s h1 _
    have hnil : s = [] := List.eq_nil_of_length_eq_zero (Nat.le_zero.mp h1)
    subst hnil
    rw [subAllFuel_nil n cl hn, subAllFuel_nil n cl hn]
  | succ g1 ih =>
    intro f2 s h1 h2
    cases f2 with
    | zero =>
      have hnil : s = [] := List.eq_nil_of_length_eq_zero (Nat.le_zero.mp h2)
      subst hnil
      rw [subAllFuel_nil n cl hn, subAllFuel_nil n cl hn]
    | succ g2 =>
      rcases hsplit : splitAtNeedle n s with - | ⟨p, r⟩
      · show subAllFuel n cl (g1 + 1) s = subAllFuel n cl (g2 + 1) s
        unfold subAllFuel
        rw [hsplit]
      · have hlt := splitAtNeedle_rem_lt n hn hsplit
        show subAllFuel n cl (g1 + 1) s = subAllFuel n cl (g2 + 1) s
        unfold subAllFuel
        rw [hsplit]
        dsimp only
        rw [ih g2 (lazySplit (r.drop n.length)).2 (by omega) (by omega)]

lemma pySubAll_none (n cl : List Char) {s : List Char}
    (hsplit : splitAtNeedle n s = none) : pySubAll n cl s = s := by
  cases s with
  | nil => rfl
  | cons c cs =>
    show subAllFuel n cl (cs.length + 1) (c :: cs) = c :: cs
    unfold subAllFuel
    rw [hsplit]

lemma pySubAll_some (n cl : List Char) (hn : n ≠ []) {s p r : List Char}
    (hsplit : splitAtNeedle n s = some (p, r)) :
    pySubAll n cl s =
      p ++ cl ++ pySubAll n cl (lazySplit (r.drop n.length)).2 := by
  have hlt := splitAtNeedle_rem_lt n hn hsplit
  cases s with
  | nil =>
    rw [splitAtNeedle_nil n hn] at hsplit
    cases hsplit
  | cons c cs =>
    show subAllFuel n cl (cs.length + 1) (c :: cs) = _
    unfold subAllFuel
    rw [hsplit]
    dsimp only
    rw [subAllFuel_congr n cl hn cs.length (lazySplit (r.drop n.length)).2.length
      (lazySplit (r.drop n.length)).2 (by simp at hlt; omega) le_rfl]
    rfl

lemma clean_nfree (n : List Char) (hn : n ≠ []) {p r : List Char}
    (h : CleanBefore n p r) : NFree n p := by
  intro i hcon
  by_cases hi : i < p.length
  · exact h i hi (hcon.trans (List.prefix_append _ r))
  · rw [List.drop_eq_nil_of_le (le_of_not_lt hi)] at hcon
    exact hn (List.prefix_nil.mp hcon)

lemma nfree_clean (n : List Char) (hper : NoPeriod n)
    {p : List Char} (hf : NFree n p) (Y : List Char) :
    CleanBefore n p (n ++ Y) := by
  intro i hi hcon
  have hqlen : 1 ≤ (p.drop i).length := by
    simp only [List.length_drop]
    omega
  by_cases hk : n.length ≤ (p.drop i).length
  · have h1 : n = (p.drop i ++ (n ++ Y)).take n.length :=
      List.prefix_iff_eq_take.mp hcon
    rw [List.take_append_of_le_length hk] at h1
    exact hf i (by rw [h1]; exact List.take_prefix _ _)
  · push_neg at hk
    have h1 : n = (p.drop i ++ (n ++ Y)).take n.length :=
      List.prefix_iff_eq_take.mp hcon
    rw [List.take_append_eq_append_take,
      List.take_of_length_le (le_of_lt hk),
      List.take_append_of_le_length (by omega)] at h1
    have h3 : n.drop (p.drop i).length = n.take (n.length - (p.drop i).length) := by
      conv_lhs => rw [h1]
      rw [List.drop_left]
    exact hper (p.drop i).length (by omega) (by omega) h3

lemma noStop_of_no_nl (x : List Char) (hx : '\n' ∉ x) : NoStop x := by
  intro i hi r
  cases hdrop : x.drop i with
  | nil =>
    exfalso
    have : (x.drop i).length = x.length - i := by simp
    rw [hdrop] at this
    simp at this
    omega
  | cons c cs =>
    have hc : c ∈ x := by
      have hmem : c ∈ x.drop i := by rw [hdrop]; simp
      exact (List.drop_suffix i x).subset hmem
    have hne : ¬ c = '\n' := fun h => hx (h ▸ hc)
    simp [stopCond, hne]

lemma noStop_append {x y : List Char} (hx : '\n' ∉ x) (hy : NoStop y) :
    NoStop (x ++ y) := by
  intro i hi r
  by_cases hix : i < x.length
  · rw [List.drop_append_of_le_length (le_of_lt hix), List.append_assoc]
    exact noStop_of_no_nl x hx i hix (y ++ r)
  · push_neg at hix
    rw [List.drop_append_eq_append_drop, List.drop_eq_nil_of_le hix,
      List.nil_append]
    apply hy
    have : (x ++ y).length = x.length + y.length := by simp
    omega

lemma noStop_nl_sub {y : List Char} (hy : NoStop y) :
    NoStop ('\n' :: '└' :: y) := by
  intro i hi r
  match i with
  | 0 => simp [stopCond, stopAfterNl]
  | 1 => simp [stopCond]
  | (j + 2) =>
    simp only [List.drop_succ_cons]
    apply hy
    simp at hi
    omega

lemma pySubAll_good (n cl body : List Char) (c0 : Char) (n' : List Char)
    (hc : n = c0 :: n') (h0a : c0 ≠ '└') (h0b : c0 ≠ '─') (h0nl : c0 ≠ '\n')
    (hcl : cl = n ++ body) :
    ∀ {rem : List Char}, stopCond rem = true →
      stopCond (pySubAll n cl rem) = true := by
  have hn : n ≠ [] := by rw [hc]; simp
  intro rem hrem
  cases rem with
  | nil =>
    rw [pySubAll_none n cl (splitAtNeedle_nil n hn)]
    rfl
  | cons d rest =>
    simp only [stopCond, decide_eq_true_eq] at hrem
    obtain ⟨hd, hstop⟩ := hrem
    subst hd
    rcases hsplit : splitAtNeedle n ('\n' :: rest) with - | ⟨p, r⟩
    · rw [pySubAll_none n cl hsplit]
      simp only [stopCond, decide_eq_true_eq]
      exact ⟨trivial, hstop⟩
    · obtain ⟨hs, hpre, -⟩ := splitAtNeedle_sound n _ p r hsplit
      rw [pySubAll_some n cl hn hsplit]
      cases p with
      | nil =>
        exfalso
        simp only [List.nil_append] at hs
        rw [hc, ← hs] at hpre
        obtain ⟨t, ht⟩ := hpre
        injection ht with h1 h2
        exact h0nl h1
      | cons e p' =>
        rw [List.cons_append] at hs
        injection hs with h1 h2
        subst h1
        show stopCond (('\n' :: p') ++ cl ++ _) = true
        simp only [List.cons_append, stopCond, decide_eq_true_eq]
        refine ⟨trivial, ?_⟩
        cases p' with
        | nil =>
          rw [hcl, hc]
          simp only [List.nil_append, List.cons_append, stopAfterNl]
          simp [h0a, h0b]
        | cons f p'' =>
          have hf : f :: (p'' ++ r) = rest := h2.symm
          have hstop' : stopAfterNl (f :: (p'' ++ r)) = true := by rw [hf]; exact hstop
          simp only [stopAfterNl, decide_eq_true_eq] at hstop'
          simp only [List.cons_append, stopAfterNl]
          simpa using hstop'

/-- The engine: replacing every annotation match with the same rendered
cost line is idempotent, for any needle of the program's shape (non-empty,
aperiodic, starting with a character that is neither a newline nor a
subordinate marker) and any replacement that extends the needle by a
region without internal stop positions. -/
lemma pySubAll_idem (n cl body : List Char) (c0 : Char) (n' : List Char)
    (hc : n = c0 :: n') (h0a : c0 ≠ '└') (h0b : c0 ≠ '─') (h0nl : c0 ≠ '\n')
    (hper : NoPeriod n) (hcl : cl = n ++ body) (hbody : NoStop body) :
    ∀ s : List Char, pySubAll n cl (pySubAll n cl s) = pySubAll n cl s := by
  have hn : n ≠ [] := by rw [hc]; simp
  suffices H : ∀ (L : ℕ) (s : List Char), s.length ≤ L →
      pySubAll n cl (pySubAll n cl s) = pySubAll n cl s by
    intro s
    exact H s.length s le_rfl
  intro L
  induction L with
  | zero =>
    intro s h1
    have hnil : s = [] := List.eq_nil_of_length_eq_zero (Nat.le_zero.mp h1)
    subst hnil
    rw [pySubAll_none n cl (splitAtNeedle_nil n hn),
      pySubAll_none n cl (splitAtNeedle_nil n hn)]
  | succ L ih =>
    intro s hL
    rcases hsplit : splitAtNeedle n s with - | ⟨p, r⟩
    · rw [pySubAll_none n cl hsplit, pySubAll_none n cl hsplit]
    · obtain ⟨hs, hpre, hclean⟩ := splitAtNeedle_sound n s p r hsplit
      have hlt : (lazySplit (r.drop n.length)).2.length < s.length :=
        splitAtNeedle_rem_lt n hn hsplit
      have hout : pySubAll n cl s =
          p ++ cl ++ pySubAll n cl (lazySplit (r.drop n.length)).2 :=
        pySubAll_some n cl hn hsplit
      have hnf : NFree n p := clean_nfree n hn hclean
      have hclean2 : CleanBefore n p
          (cl ++ pySubAll n cl (lazySplit (r.drop n.length)).2) := by
        have h := nfree_clean n hper hnf
          (body ++ pySubAll n cl (lazySplit (r.drop n.length)).2)
        nth_rewrite 1 [hcl]
        rw [List.append_assoc]
        exact h
      have hpre2 : n <+: cl ++ pySubAll n cl (lazySplit (r.drop n.length)).2 := by
        nth_rewrite 1 [hcl]
        rw [List.append_assoc]
        exact ⟨_, rfl⟩
      have hsplit2 : splitAtNeedle n
          (p ++ (cl ++ pySubAll n cl (lazySplit (r.drop n.length)).2)) =
          some (p, cl ++ pySubAll n cl (lazySplit (r.drop n.length)).2) :=
        splitAtNeedle_complete n p _ hpre2 hclean2
      have hgood : stopCond (lazySplit (r.drop n.length)).2 = true :=
        lazySplit_good _
      have hgood2 : stopCond (pySubAll n cl (lazySplit (r.drop n.length)).2) = true :=
        pySubAll_good n cl body c0 n' hc h0a h0b h0nl hcl hgood
      have hlazy2 : lazySplit (body ++ pySubAll n cl (lazySplit (r.drop n.length)).2) =
          (body, pySubAll n cl (lazySplit (r.drop n.length)).2) :=
        lazySplit_complete body _ (fun i hi => hbody i hi _) hgood2
      have hdrop : (cl ++ pySubAll n cl (lazySplit (r.drop n.length)).2).drop n.length =
          body ++ pySubAll n cl (lazySplit (r.drop n.length)).2 := by
        nth_rewrite 1 [hcl]
        rw [List.append_assoc, List.drop_left]
      rw [hout]
      calc pySubAll n cl (p ++ cl ++ pySubAll n cl (lazySplit (r.drop n.length)).2)
          = pySubAll n cl (p ++ (cl ++ pySubAll n cl (lazySplit (r.drop n.length)).2)) := by
            rw [List.append_assoc]
        _ = p ++ cl ++ pySubAll n cl (lazySplit
              ((cl ++ pySubAll n cl (lazySplit (r.drop n.length)).2).drop n.length)).2 :=
            pySubAll_some n cl hn hsplit2
        _ = p ++ cl ++ pySubAll n cl (pySubAll n cl (lazySplit (r.drop n.length)).2) := by
            rw [hdrop, hlazy2]
        _ = p ++ cl ++ pySubAll n cl (lazySplit (r.drop n.length)).2 := by
            rw [ih (lazySplit (r.drop n.length)).2 (by omega)]

lemma natDigitsRevAux_no_nl : ∀ (fuel m : ℕ), '\n' ∉ natDigitsRevAux fuel m := by
  intro fuel
  induction fuel with
  | zero => intro m; simp [natDigitsRevAux]
  | succ g ih =>
    intro m
    unfold natDigitsRevAux
    split_ifs with h
    · intro hmem
      simp only [List.mem_singleton] at hmem
      exact absurd hmem.symm ((by decide : ∀ d < 10, digitChar d ≠ '\n') m h)
    · intro hmem
      simp only [List.mem_cons] at hmem
      rcases hmem with h1 | h2
      · exact absurd h1.symm
          ((by decide : ∀ d < 10, digitChar d ≠ '\n') (m % 10) (Nat.mod_lt _ (by omega)))
      · exact ih (m / 10) h2

lemma natToChars_no_nl (m : ℕ) : '\n' ∉ natToChars m := by
  unfold natToChars natDigitsRev
  rw [List.mem_reverse]
  exact natDigitsRevAux_no_nl _ _

lemma groupRev_mem :
    ∀ (N : ℕ) (l : List Char), l.length ≤ N →
      ∀ x ∈ groupRev l, x ∈ l ∨ x = ',' := by
  intro N
  induction N with
  | zero =>
    intro l h1 x hx
    have hnil : l = [] := List.eq_nil_of_length_eq_zero (Nat.le_zero.mp h1)
    subst hnil
    simp [groupRev] at hx
  | succ N ih =>
    intro l h1 x hx
    rcases l with - | ⟨a, - | ⟨b, - | ⟨c, - | ⟨d, rest⟩⟩⟩⟩
    · simp [groupRev] at hx
    · rw [show groupRev [a] = [a] from rfl] at hx
      exact Or.inl hx
    · rw [show groupRev [a, b] = [a, b] from rfl] at hx
      exact Or.inl hx
    · rw [show groupRev [a, b, c] = [a, b, c] from rfl] at hx
      exact Or.inl hx
    · rw [show groupRev (a :: b :: c :: d :: rest) =
        a :: b :: c :: ',' :: groupRev (d :: rest) from rfl] at hx
      simp only [List.mem_cons] at hx ⊢
      rcases hx with h | h | h | h | h
      · exact Or.inl (Or.inl h)
      · exact Or.inl (Or.inr (Or.inl h))
      · exact Or.inl (Or.inr (Or.inr (Or.inl h)))
      · exact Or.inr h
      · rcases ih (d :: rest) (by simp at h1 ⊢; omega) x h with h' | h'
        · simp only [List.mem_cons] at h'
          rcases h' with h'' | h''
          · exact Or.inl (Or.inr (Or.inr (Or.inr (Or.inl h''))))
          · exact Or.inl (Or.inr (Or.inr (Or.inr (Or.inr h''))))
        · exact Or.inr h'

lemma commaNat_no_nl (m : ℕ) : '\n' ∉ commaNat m := by
  unfold commaNat
  rw [List.mem_reverse]
  intro hmem
  rcases groupRev_mem (natDigitsRev m).length _ le_rfl _ hmem with h | h
  · exact natDigitsRevAux_no_nl _ _ h
  · cases h

lemma commaFmt_no_nl (z : ℤ) : '\n' ∉ commaFmt z := by
  unfold commaFmt
  split_ifs with h
  · intro hmem
    simp only [List.mem_cons] at hmem
    rcases hmem with h1 | h2
    · cases h1
    · exact commaNat_no_nl _ h2
  · exact commaNat_no_nl _

lemma display_no_nl (z : ℤ) : '\n' ∉ get_cost_display_format z := by
  unfold get_cost_display_format
  split_ifs with h1 h2 <;>
    · intro hmem
      simp only [List.mem_cons] at hmem
      rcases hmem with h | h | h | h
      · cases h
      · cases h
      · cases h
      · exact commaFmt_no_nl _ h

/-- Every rendered cost line is the needle (tag plus colon) followed by a
region with no internal stop position: the matcher always consumes a
freshly rendered line whole. -/
lemma cl_structure (inv eff : ℤ) (ic ec : ℕ) :
    ∃ body, create_dual_cost_display defaultConfig inv eff ic ec =
      needleOf defaultConfig ++ body ∧ NoStop body := by
  unfold create_dual_cost_display needleOf
  split_ifs with hie
  · refine ⟨' ' :: get_cost_display_format eff, ?_, ?_⟩
    · rw [List.append_assoc]
      rfl
    · apply noStop_of_no_nl
      intro hmem
      simp only [List.mem_cons] at hmem
      rcases hmem with h | h
      · cases h
      · exact display_no_nl _ h
  · have hlit : "└─ Invited cost: ".data = '└' :: '─' :: " Invited cost: ".data := by
      decide
    refine ⟨(' ' :: get_cost_display_format eff) ++
      ('\n' :: '└' :: ('─' :: (" Invited cost: ".data ++
        get_cost_display_format inv ++
        ' ' :: '(' :: natToChars ic ++ " invited → ".data ++
        natToChars ec ++ " attending)".data))), ?_, ?_⟩
    · rw [hlit]
      simp [List.append_assoc]
    · apply noStop_append
      · intro hmem
        simp only [List.mem_cons] at hmem
        rcases hmem with h | h
        · cases h
        · exact display_no_nl _ h
      · apply noStop_nl_sub
        apply noStop_of_no_nl
        intro hmem
        simp [List.mem_cons, List.mem_append, natToChars_no_nl ic,
          natToChars_no_nl ec, display_no_nl inv] at hmem

lemma nfree_cons (n : List Char) (c0 : Char) (n' : List Char) (hc : n = c0 :: n')
    {x : List Char} (hx : NFree n x) (c : Char) (hne : c ≠ c0) :
    NFree n (c :: x) := by
  intro i
  cases i with
  | zero =>
    simp only [List.drop_zero]
    intro hcon
    rw [hc] at hcon
    obtain ⟨t, ht⟩ := hcon
    injection ht with h1 _
    exact hne h1.symm
  | succ j => simpa using hx j

/-- **C4** (confirmed).  The annotation merge of `annotate_event` is
idempotent: re-annotating a description with the same cost fields
produces exactly the same text, for every original description and every
choice of the four cost fields the rendering reads. -/
theorem c4_annotation_idempotent (inv eff : ℤ) (ic ec : ℕ) (desc : List Char) :
    annotate_description defaultConfig inv eff ic ec
      (annotate_description defaultConfig inv eff ic ec desc) =
    annotate_description defaultConfig inv eff ic ec desc := by
  obtain ⟨body, hcl, hbody⟩ := cl_structure inv eff ic ec
  have hcons : needleOf defaultConfig = '[' :: "[MEETING_COST]]:".data := by decide
  have hper : NoPeriod (needleOf defaultConfig) := by unfold NoPeriod; decide
  have hn : needleOf defaultConfig ≠ [] := by rw [hcons]; simp
  have hidem := pySubAll_idem (needleOf defaultConfig)
    (create_dual_cost_display defaultConfig inv eff ic ec) body '['
    "[MEETING_COST]]:".data hcons (by decide) (by decide) (by decide) hper hcl hbody
  rcases hsplit : splitAtNeedle (needleOf defaultConfig) desc with - | ⟨p, r⟩
  · have hfree : NFree (needleOf defaultConfig) desc :=
      splitAtNeedle_none (needleOf defaultConfig) desc hsplit
    have hone : annotate_description defaultConfig inv eff ic ec desc =
        if desc.any (fun c => ¬ isPySpace c) then
          create_dual_cost_display defaultConfig inv eff ic ec ++ '\n' :: '\n' :: desc
        else create_dual_cost_display defaultConfig inv eff ic ec := by
      unfold annotate_description
      rw [hsplit]
    rw [hone]
    by_cases hany : desc.any (fun c => ¬ isPySpace c) = true
    · rw [if_pos hany]
      -- the once-annotated text is cl ++ '\n' :: '\n' :: desc
      have hpre2 : needleOf defaultConfig <+:
          create_dual_cost_display defaultConfig inv eff ic ec ++ '\n' :: '\n' :: desc :=
        ⟨body ++ '\n' :: '\n' :: desc, by rw [hcl, List.append_assoc]⟩
      have hsplit2 : splitAtNeedle (needleOf defaultConfig)
          (create_dual_cost_display defaultConfig inv eff ic ec ++ '\n' :: '\n' :: desc) =
          some ([], create_dual_cost_display defaultConfig inv eff ic ec ++
            '\n' :: '\n' :: desc) := by
        have := splitAtNeedle_complete (needleOf defaultConfig) []
          (create_dual_cost_display defaultConfig inv eff ic ec ++ '\n' :: '\n' :: desc)
          hpre2 (fun i hi => absurd hi (by simp))
        simpa using this
      have hfree2 : NFree (needleOf defaultConfig) ('\n' :: '\n' :: desc) := by
        apply nfree_cons _ _ _ hcons _ _ (by decide)
        exact nfree_cons _ _ _ hcons hfree _ (by decide)
      have hdrop2 : (create_dual_cost_display defaultConfig inv eff ic ec ++
          '\n' :: '\n' :: desc).drop (needleOf defaultConfig).length =
          body ++ '\n' :: '\n' :: desc := by
        nth_rewrite 1 [hcl]
        rw [List.append_assoc, List.drop_left]
      have hlazy2 : lazySplit (body ++ '\n' :: '\n' :: desc) =
          (body, '\n' :: '\n' :: desc) :=
        lazySplit_complete body _ (fun i hi => hbody i hi _)
          (by simp [stopCond, stopAfterNl])
      unfold annotate_description
      rw [hsplit2]
      rw [pySubAll_some (needleOf defaultConfig) _ hn hsplit2]
      rw [hdrop2, hlazy2]
      rw [pySubAll_none _ _ (splitAtNeedle_none_of_nfree _ hn _ hfree2)]
      simp
    · rw [if_neg hany]
      have hpre2 : needleOf defaultConfig <+:
          create_dual_cost_display defaultConfig inv eff ic ec :=
        ⟨body, by rw [hcl]⟩
      have hsplit2 : splitAtNeedle (needleOf defaultConfig)
          (create_dual_cost_display defaultConfig inv eff ic ec) =
          some ([], create_dual_cost_display defaultConfig inv eff ic ec) := by
        have := splitAtNeedle_complete (needleOf defaultConfig) []
          (create_dual_cost_display defaultConfig inv eff ic ec)
          hpre2 (fun i hi => absurd hi (by simp))
        simpa using this
      have hdrop2 : (create_dual_cost_display defaultConfig inv eff ic ec).drop
          (needleOf defaultConfig).length = body := by
        rw [hcl, List.drop_left]
      have hlazy2 : lazySplit body = (body, []) := by
        have := lazySplit_complete body [] (fun i hi => hbody i hi _) rfl
        simpa using this
      unfold annotate_description
      rw [hsplit2]
      rw [pySubAll_some (needleOf defaultConfig) _ hn hsplit2]
      rw [hdrop2, hlazy2]
      rw [pySubAll_none _ _ (splitAtNeedle_nil _ hn)]
      simp
  · have hone : annotate_description defaultConfig inv eff ic ec desc =
        pySubAll (needleOf defaultConfig)
          (create_dual_cost_display defaultConfig inv eff ic ec) desc := by
      unfold annotate_description
      rw [hsplit]
    rw [hone]
    have hXd := pySubAll_some (needleOf defaultConfig)
      (create_dual_cost_display defaultConfig inv eff ic ec) hn hsplit
    rcases hX : splitAtNeedle (needleOf defaultConfig)
        (pySubAll (needleOf defaultConfig)
          (create_dual_cost_display defaultConfig inv eff ic ec) desc) with - | pr2
    · exfalso
      have hfreeX := splitAtNeedle_none (needleOf defaultConfig) _ hX
      have hcontra := hfreeX p.length
      rw [hXd, List.append_assoc, List.drop_left] at hcontra
      exact hcontra ⟨body ++ _, by rw [hcl, List.append_assoc]⟩
    · have : annotate_description defaultConfig inv eff ic ec
          (pySubAll (needleOf defaultConfig)
            (create_dual_cost_display defaultConfig inv eff ic ec) desc) =
          pySubAll (needleOf defaultConfig)
            (create_dual_cost_display defaultConfig inv eff ic ec)
            (pySubAll (needleOf defaultConfig)
              (create_dual_cost_display defaultConfig inv eff ic ec) desc) := by
        unfold annotate_description
        rw [hX]
      rw [this, hidem desc]

/-- **C5** — counterexample.  For the whitespace-only description `" "`
(no prior annotation block, not empty), the code emits the cost line
alone, dropping the whitespace — neither of the claim's two shapes
(prepend-with-separator for a non-empty description, alone only for the
empty one). -/
theorem c5_counterexample :
    annotate_description defaultConfig 250 250 2 2 [' '] =
      create_dual_cost_display defaultConfig 250 250 2 2 ∧
    ([' '] : List Char) ≠ [] ∧
    annotate_description defaultConfig 250 250 2 2 [' '] ≠
      create_dual_cost_display defaultConfig 250 250 2 2 ++ '\n' :: '\n' :: [' '] := by
  exact ⟨by decide, by decide, by decide⟩

/-- **C5** (amended).  (a) A description consisting of surrounding text
with no tag occurrence, a prior annotation block (the needle followed by
a region the matcher consumes whole — any rendered cost line has this
shape by `cl_structure`), and unrelated trailing text (no tag occurrence,
starting at a block boundary) is re-annotated by replacing exactly the
block, preserving all other text verbatim.  (b) With no prior block and
a description containing a non-whitespace character, the new block is
prepended followed by a blank-line separator.  (c) An empty description
yields the block alone (a whitespace-only description does too, which is
where the original claim fails — see `c5_counterexample`). -/
theorem c5_replace_in_place_or_prepend :
    (∀ (inv0 eff0 : ℤ) (ic0 ec0 : ℕ) (inv1 eff1 : ℤ) (ic1 ec1 : ℕ)
      (p t : List Char),
      splitAtNeedle (needleOf defaultConfig) p = none →
      splitAtNeedle (needleOf defaultConfig) t = none →
      stopCond t = true →
      annotate_description defaultConfig inv1 eff1 ic1 ec1
        (p ++ create_dual_cost_display defaultConfig inv0 eff0 ic0 ec0 ++ t) =
      p ++ create_dual_cost_display defaultConfig inv1 eff1 ic1 ec1 ++ t) ∧
    (∀ (inv eff : ℤ) (ic ec : ℕ) (desc : List Char),
      splitAtNeedle (needleOf defaultConfig) desc = none →
      desc.any (fun c => ¬ isPySpace c) = true →
      annotate_description defaultConfig inv eff ic ec desc =
        create_dual_cost_display defaultConfig inv eff ic ec ++ '\n' :: '\n' :: desc) ∧
    (∀ (inv eff : ℤ) (ic ec : ℕ),
      annotate_description defaultConfig inv eff ic ec [] =
        create_dual_cost_display defaultConfig inv eff ic ec) := by
  have hcons : needleOf defaultConfig = '[' :: "[MEETING_COST]]:".data := by decide
  have hper : NoPeriod (needleOf defaultConfig) := by unfold NoPeriod; decide
  have hn : needleOf defaultConfig ≠ [] := by rw [hcons]; simp
  refine ⟨?_, ?_, ?_⟩
  · intro inv0 eff0 ic0 ec0 inv1 eff1 ic1 ec1 p t hp ht hstop
    obtain ⟨body0, hcl0, hbody0⟩ := cl_structure inv0 eff0 ic0 ec0
    have hfreeP := splitAtNeedle_none (needleOf defaultConfig) p hp
    have hfreeT := splitAtNeedle_none (needleOf defaultConfig) t ht
    have hclean : CleanBefore (needleOf defaultConfig) p
        (create_dual_cost_display defaultConfig inv0 eff0 ic0 ec0 ++ t) := by
      nth_rewrite 1 [hcl0]
      rw [List.append_assoc]
      exact nfree_clean _ hper hfreeP _
    have hpre : needleOf defaultConfig <+:
        create_dual_cost_display defaultConfig inv0 eff0 ic0 ec0 ++ t :=
      ⟨body0 ++ t, by rw [hcl0, List.append_assoc]⟩
    have hsplitS : splitAtNeedle (needleOf defaultConfig)
        (p ++ (create_dual_cost_display defaultConfig inv0 eff0 ic0 ec0 ++ t)) =
        some (p, create_dual_cost_display defaultConfig inv0 eff0 ic0 ec0 ++ t) :=
      splitAtNeedle_complete _ p _ hpre hclean
    have hdropS : (create_dual_cost_display defaultConfig inv0 eff0 ic0 ec0 ++ t).drop
        (needleOf defaultConfig).length = body0 ++ t := by
      nth_rewrite 1 [hcl0]
      rw [List.append_assoc, List.drop_left]
    have hlazyS : lazySplit (body0 ++ t) = (body0, t) :=
      lazySplit_complete body0 t (fun i hi => hbody0 i hi _) hstop
    rw [List.append_assoc]
    unfold annotate_description
    rw [hsplitS]
    rw [pySubAll_some _ _ hn hsplitS, hdropS, hlazyS,
      pySubAll_none _ _ (splitAtNeedle_none_of_nfree _ hn _ hfreeT)]
  · intro inv eff ic ec desc hsplit hany
    unfold annotate_description
    rw [hsplit]
    exact if_pos hany
  · intro inv eff ic ec
    unfold annotate_description
    rw [splitAtNeedle_nil _ hn]
    simp

/-- Witness for `c5_replace_in_place_or_prepend`: surrounding text
`"pre text\n"`, a prior dual-line block for costs 750/500, trailing text
`"\nafter"`, re-annotated with costs 250/250. -/
theorem c5_replace_in_place_or_prepend_witness :
    splitAtNeedle (needleOf defaultConfig) "pre text\n".data = none ∧
    splitAtNeedle (needleOf defaultConfig) ('\n' :: "after".data) = none ∧
    stopCond ('\n' :: "after".data) = true ∧
    annotate_description defaultConfig 250 250 2 2
      ("pre text\n".data ++ create_dual_cost_display defaultConfig 750 500 3 2 ++
        ('\n' :: "after".data)) =
      "pre text\n".data ++ create_dual_cost_display defaultConfig 250 250 2 2 ++
        ('\n' :: "after".data) := by
  refine ⟨by decide, by decide, by decide, ?_⟩
  exact c5_replace_in_place_or_prepend.1 750 500 3 2 250 250 2 2
    "pre text\n".data ('\n' :: "after".data) (by decide) (by decide) (by decide)

end MeetingCost
